import Mathlib

/-!
Verification of the youtube-researcher repository.

Shallow embedding of the TypeScript sources:
* `src/src/lib/sanitize.ts`    — HTML escaping, error-message allowlisting;
* `src/src/lib/rateLimit.ts`   — fixed-window rate limiter and middleware;
* `src/unnamed/part_002`       — video-id extraction and transcript fetching;
* `src/unnamed/part_001`       — contextual compressor;
* `src/unnamed/part_003`       — RAG indexing/query;
* `src/pages/api/ask.ts`       — SSE streaming handler.

JavaScript strings are modelled as Lean `String`/`List Char`; timestamps and
lengths as `Nat`; fallible operations as `Except`/`Option`.  External
collaborators (the LangChain agent, the YouTube loader, the Pinecone store)
are passed in as explicit parameters, so every function here is a pure
function of its inputs, exactly mirroring the control flow of the source.
-/

namespace YTR

/-! ## Generic JavaScript-style string helpers -/

/-- The quotation-mark character. -/
def quoteChar : Char := Char.ofNat 34

/-- The apostrophe character. -/
def aposChar : Char := Char.ofNat 39

/-- Whitespace as used by JavaScript `trim`/`\s` (ASCII part; the sources only
ever meet ASCII whitespace). -/
def jsWs (c : Char) : Bool :=
  c = ' ' || c = '\t' || c = '\n' || c = '\r' || c = Char.ofNat 11 || c = Char.ofNat 12

/-- A string is blank when `!s.trim()` holds in JavaScript, i.e. trimming
leaves the empty string, i.e. every character is whitespace. -/
def jsBlank (s : String) : Bool := s.data.all jsWs

/-- Substring test, JavaScript `String.prototype.includes`. -/
def containsSub (hay needle : List Char) : Bool :=
  if needle.isPrefixOf hay then true
  else
    match hay with
    | [] => false
    | _ :: t => containsSub t needle

/-- Drop `pre` from the front of `s`, or fail when `pre` is not a prefix. -/
def stripPre : List Char → List Char → Option (List Char)
  | [], s => some s
  | _ :: _, [] => none
  | p :: ps, c :: cs => if c = p then stripPre ps cs else none

/-- JavaScript `trim` (both ends). -/
def trimChars (l : List Char) : List Char :=
  ((l.dropWhile jsWs).reverse.dropWhile jsWs).reverse

/-- Lowercasing, JavaScript `toLowerCase` (ASCII behaviour). -/
def lowerChars (l : List Char) : List Char := l.map Char.toLower

/-- Split a character list on maximal nonempty runs of characters satisfying
`p`, as JavaScript `split(/[p]+/)` does: consecutive separators count as one,
and a leading/trailing separator produces an empty piece.  The state is
`some cur` while accumulating a piece (in reverse) and `none` while inside a
separator run. -/
def splitRunsGo (p : Char → Bool) (st : Option (List Char)) :
    List Char → List (List Char)
  | [] =>
    match st with
    | some cur => [cur.reverse]
    | none => [[]]
  | c :: cs =>
    if p c then
      match st with
      | some cur => cur.reverse :: splitRunsGo p none cs
      | none => splitRunsGo p none cs
    else
      match st with
      | some cur => splitRunsGo p (some (c :: cur)) cs
      | none => splitRunsGo p (some [c]) cs

/-- Split on runs of `p`-characters. -/
def splitRuns (p : Char → Bool) (l : List Char) : List (List Char) :=
  splitRunsGo p (some []) l

/-- Length of the pending piece of a splitter state. -/
def stLen : Option (List Char) → Nat
  | some cur => cur.length
  | none => 0

/-- Join pieces with a separator, JavaScript `Array.prototype.join`. -/
def joinSep (sep : List Char) : List (List Char) → List Char
  | [] => []
  | [x] => x
  | x :: y :: xs => x ++ sep ++ joinSep sep (y :: xs)

/-! ## src/src/lib/sanitize.ts -/

/-- The `htmlEscapeMap` replacement performed by `sanitizeHTML` on one
character. -/
def htmlEscapeChar (c : Char) : List Char :=
  if c = '&' then "&amp;".data
  else if c = '<' then "&lt;".data
  else if c = '>' then "&gt;".data
  else if c = quoteChar then "&quot;".data
  else if c = aposChar then "&#x27;".data
  else if c = '/' then "&#x2F;".data
  else [c]

/-- Mirrors `sanitizeHTML`: escape the six HTML-special characters. -/
def sanitizeHTML (s : String) : String :=
  String.mk ((s.data.map htmlEscapeChar).flatten)

/-- Mirrors `truncate`: cap a string at `maxLength` characters, appending an
ellipsis when it was cut. -/
def truncate (s : String) (maxLength : Nat := 200) : String :=
  if s.data.length ≤ maxLength then s
  else String.mk (s.data.take maxLength) ++ "..."

/-- A JSON-ish JavaScript value, the shape of tool arguments. -/
inductive JsValue where
  | str (s : String)
  | num (n : Int)
  | boolean (b : Bool)
  | null
  | arr (items : List JsValue)
  | obj (fields : List (String × JsValue))

/-- Mirrors `sanitizeObject`: recursively escape every string, with a depth
fuel of 5; the depth check precedes every other case, as in the source. -/
def sanitizeObject : JsValue → Nat → JsValue
  | _, 0 => .str "[Max depth reached]"
  | .null, _ => .null
  | .str s, _ => .str (sanitizeHTML s)
  | .num n, _ => .num n
  | .boolean b, _ => .boolean b
  | .arr items, d + 1 => .arr (items.map (fun v => sanitizeObject v d))
  | .obj fields, d + 1 =>
    .obj (fields.map (fun f => (sanitizeHTML f.1, sanitizeObject f.2 d)))

/-- The field names `sanitizeToolArgs` redacts. -/
def sensitiveFields : List String :=
  ["password", "token", "secret", "key", "apiKey", "api_key", "credentials"]

/-- Mirrors `sanitizeToolArgs`: sanitize, then redact sensitive top-level
fields. -/
def sanitizeToolArgs (args : JsValue) : JsValue :=
  match sanitizeObject args 5 with
  | .obj fields =>
    .obj (fields.map (fun f =>
      if sensitiveFields.contains f.1 then (f.1, .str "[REDACTED]") else f))
  | v => v

/-- A JavaScript error as `sanitizeErrorMessage` observes it: an optional
`message` property and an optional `toString()` rendering. -/
structure JsError where
  message : Option String
  toStringVal : Option String

/-- JavaScript `a || b` on an optional string: empty and absent are falsy. -/
def orTruthy (o : Option String) (dflt : String) : String :=
  match o with
  | some s => if s = "" then dflt else s
  | none => dflt

/-- The message `sanitizeErrorMessage` derives from an error:
`error?.message || error?.toString?.() || "An error occurred"`. -/
def errMessageOf (e : JsError) : String :=
  orTruthy e.message (orTruthy e.toStringVal "An error occurred")

/-- The `safeErrorPatterns` allowlist test.  Each regular expression in the
source is a case-insensitive substring pattern; `/invalid (url|youtube|video)/i`
and `/too (long|large|many)/i` expand into their three alternatives. -/
def matchesSafePattern (msg : String) : Bool :=
  let m := lowerChars msg.data
  containsSub m "rate limit".data ||
  containsSub m "validation error".data ||
  containsSub m "invalid url".data ||
  containsSub m "invalid youtube".data ||
  containsSub m "invalid video".data ||
  containsSub m "not found".data ||
  containsSub m "timeout".data ||
  containsSub m "too long".data ||
  containsSub m "too large".data ||
  containsSub m "too many".data

/-- The fixed generic fallback message of `sanitizeErrorMessage`. -/
def genericErrorMessage : String :=
  "An unexpected error occurred. Please try again later."

/-- Mirrors `sanitizeErrorMessage`: allowlisted messages are escaped and
surfaced, everything else is replaced by the generic message. -/
def sanitizeErrorMessage (error : JsError) : String :=
  let errorMessage := errMessageOf error
  if matchesSafePattern errorMessage then sanitizeHTML errorMessage
  else genericErrorMessage

/-- `sanitizeErrorMessage` applied to an error whose message is known. -/
def sanitizeErrorMessageStr (msg : String) : String :=
  sanitizeErrorMessage ⟨some msg, none⟩

/-! ## src/src/lib/rateLimit.ts -/

/-- One record of the in-memory store: requests seen in the current window and
the window's expiry time (milliseconds). -/
structure RLRecord where
  count : Nat
  resetTime : Nat
deriving DecidableEq

/-- The rate limiter's store, keyed by client identifier. -/
abbrev RLStore := String → Option RLRecord

/-- The store of a freshly constructed limiter. -/
def emptyStore : RLStore := fun _ => none

/-- Store update `this.store[identifier] = r`. -/
def setRecord (st : RLStore) (identifier : String) (r : RLRecord) : RLStore :=
  fun j => if j = identifier then some r else st j

/-- Store update `delete this.store[identifier]`. -/
def removeRecord (st : RLStore) (identifier : String) : RLStore :=
  fun j => if j = identifier then none else st j

/-- The limiter's configuration (`maxRequests`, `windowMs`). -/
structure RateLimiter where
  maxRequests : Nat
  windowMs : Nat

/-- Mirrors `RateLimiter.isAllowed`; `now` is `Date.now()`.  Returns the
decision together with the updated store. -/
def RateLimiter.isAllowed (rl : RateLimiter) (st : RLStore) (identifier : String)
    (now : Nat) : Bool × RLStore :=
  match st identifier with
  | none => (true, setRecord st identifier ⟨1, now + rl.windowMs⟩)
  | some record =>
    if now > record.resetTime then
      (true, setRecord st identifier ⟨1, now + rl.windowMs⟩)
    else if record.count < rl.maxRequests then
      (true, setRecord st identifier ⟨record.count + 1, record.resetTime⟩)
    else
      (false, st)

/-- The result shape of `RateLimiter.getInfo`. -/
structure RLInfo where
  remaining : Int
  resetTime : Nat
  limit : Nat
deriving DecidableEq

/-- Mirrors `RateLimiter.getInfo` (read-only). -/
def RateLimiter.getInfo (rl : RateLimiter) (st : RLStore) (identifier : String)
    (now : Nat) : RLInfo :=
  match st identifier with
  | none => ⟨rl.maxRequests, now + rl.windowMs, rl.maxRequests⟩
  | some record =>
    if now > record.resetTime then ⟨rl.maxRequests, now + rl.windowMs, rl.maxRequests⟩
    else ⟨max 0 ((rl.maxRequests : Int) - record.count), record.resetTime, rl.maxRequests⟩

/-- Mirrors `RateLimiter.cleanup`: drop expired records. -/
def RateLimiter.cleanup (rl : RateLimiter) (st : RLStore) (now : Nat) : RLStore :=
  fun identifier =>
    match st identifier with
    | some r => if now > r.resetTime then none else some r
    | none => none

/-- Mirrors `RateLimiter.reset`. -/
def RateLimiter.reset (rl : RateLimiter) (st : RLStore) (identifier : String) : RLStore :=
  removeRecord st identifier

/-- The singleton `rateLimiter = new RateLimiter(10, 60000)`. -/
def theRateLimiter : RateLimiter := ⟨10, 60000⟩

/-- `Math.ceil(d / 1000)` on a nonnegative integer number of milliseconds. -/
def ceilDiv1000 (d : Nat) : Nat := (d + 999) / 1000

/-- Mirrors the decision logic of `withRateLimit`: `getInfo` first (for the
headers), then `isAllowed`; a denial answers 429 with
`retryAfter = Math.ceil((info.resetTime - now) / 1000)`.  Returns
`none` when the wrapped handler runs, `some retryAfter` on denial. -/
def withRateLimit (rl : RateLimiter) (st : RLStore) (identifier : String)
    (now : Nat) : Option Nat × RLStore :=
  let info := rl.getInfo st identifier now
  let res := rl.isAllowed st identifier now
  if res.1 then (none, res.2)
  else (some (ceilDiv1000 (info.resetTime - now)), res.2)

/-- A sequence of `isAllowed` calls for one identifier at given times. -/
def runCalls (rl : RateLimiter) (st : RLStore) (identifier : String) :
    List Nat → List Bool × RLStore
  | [] => ([], st)
  | t :: ts =>
    let r := rl.isAllowed st identifier t
    let rest := runCalls rl r.2 identifier ts
    (r.1 :: rest.1, rest.2)

/-- Invariant: every stored record's count is at most the configured maximum. -/
def StoreBounded (maxRequests : Nat) (st : RLStore) : Prop :=
  ∀ identifier r, st identifier = some r → r.count ≤ maxRequests


/-! ## src/unnamed/part_002 (loader): video-id extraction

The four regular expressions of `YOUTUBE_URL_PATTERNS` all have the shape
`(?:https?:\\/\\/)?(?:www\\.)?HOST([a-zA-Z0-9_-]{11})(?:[OPENS].*)?$` (the
mobile pattern has no `www.` option).  They are anchored at the end only, so
`String.prototype.match` scans start positions left to right.  The optional
scheme/`www.` groups are deterministic: the alternatives start with distinct
characters (`h`, `w`, and the host's `y`/`m`), so greedy matching with
backtracking equals the straightforward strip-if-prefix parse modelled here.
`.` in the patterns matches any character except a newline. -/

/-- The id character class `[a-zA-Z0-9_-]`. -/
def isIdChar (c : Char) : Bool := c.isAlpha || c.isDigit || c = '_' || c = '-'

/-- A canonical 11-character video identifier (`/^[a-zA-Z0-9_-]{11}$/`). -/
def isValidId (s : String) : Bool := s.data.length = 11 && s.data.all isIdChar

/-- The optional scheme group `(?:https?:\\/\\/)?`. -/
def stripScheme (l : List Char) : List Char :=
  match stripPre "https://".data l with
  | some r => r
  | none =>
    match stripPre "http://".data l with
    | some r => r
    | none => l

/-- The optional `(?:www\\.)?` group. -/
def stripWww (l : List Char) : List Char :=
  match stripPre "www.".data l with
  | some r => r
  | none => l

/-- The capture group `([a-zA-Z0-9_-]{11})`: exactly 11 id characters. -/
def takeId (l : List Char) : Option (List Char × List Char) :=
  if (l.take 11).length = 11 && (l.take 11).all isIdChar then
    some (l.take 11, l.drop 11)
  else none

/-- The optional query suffix, e.g. `(?:[&?].*)?$`: either the end of the
input, or one of the `opens` characters followed by a newline-free tail. -/
def suffixOk (opens : List Char) (l : List Char) : Bool :=
  match l with
  | [] => true
  | c :: rest => opens.contains c && rest.all (fun d => d != '\n')

/-- Matching one URL pattern at a fixed start position. -/
def matchPatternAt (www : Bool) (host opens : List Char) (l : List Char) :
    Option (List Char) :=
  let l1 := stripScheme l
  let l2 := if www then stripWww l1 else l1
  (stripPre host l2).bind (fun r =>
    (takeId r).bind (fun p =>
      if suffixOk opens p.2 then some p.1 else none))

/-- The `standard` pattern. -/
def matchStandardAt : List Char → Option (List Char) :=
  matchPatternAt true "youtube.com/watch?v=".data ['&', '?']

/-- The `short` pattern. -/
def matchShortAt : List Char → Option (List Char) :=
  matchPatternAt true "youtu.be/".data ['?']

/-- The `embed` pattern. -/
def matchEmbedAt : List Char → Option (List Char) :=
  matchPatternAt true "youtube.com/embed/".data ['?']

/-- The `mobile` pattern. -/
def matchMobileAt : List Char → Option (List Char) :=
  matchPatternAt false "m.youtube.com/watch?v=".data ['&', '?']

/-- `input.match(pattern)` for an end-anchored pattern: the leftmost start
position at which the pattern matches, scanning left to right. -/
def findMatch (m : List Char → Option (List Char)) : List Char → Option (List Char)
  | [] => m []
  | c :: t => (m (c :: t)).orElse (fun _ => findMatch m t)

/-- The patterns in the iteration order of `Object.values(YOUTUBE_URL_PATTERNS)`. -/
def patternMatchers : List (List Char → Option (List Char)) :=
  [matchStandardAt, matchShortAt, matchEmbedAt, matchMobileAt]

/-- The loop `for (const pattern of …) { const match = input.match(pattern);
if (match) return match[1]; }`. -/
def tryPatterns : List (List Char → Option (List Char)) → List Char → Option (List Char)
  | [], _ => none
  | m :: ms, l => (findMatch m l).orElse (fun _ => tryPatterns ms l)

/-- Mirrors `extractVideoId`: empty/blank input fails, a bare 11-character id
is returned as is, otherwise the first pattern that matches anywhere in the
input yields its capture. -/
def extractVideoId (input : String) : Option String :=
  if jsBlank input then none
  else if isValidId input then some input
  else (tryPatterns patternMatchers input.data).map String.mk

/-! ## src/unnamed/part_002 (loader): retryWithBackoff and fetchTranscript -/

/-- A LangChain document as the loader returns it: its transcript text.  A
missing `pageContent` is modelled as the empty string (the source applies
`?? ""`). -/
structure Doc where
  pageContent : String

/-- The success shape of `fetchTranscript`. -/
structure TranscriptResult where
  id : String
  text : String
  docs : List Doc

/-- The loop of `retryWithBackoff`: try attempt `attempt`; on failure, retry
while `fuel` remains, else rethrow the last error.  Delays and the `onRetry`
observability hook do not affect the result and are not modelled. -/
def retryGo {a : Type} (fn : Nat → Except String a) : Nat → Nat → Except String a
  | attempt, fuel =>
    match fn attempt with
    | .ok x => .ok x
    | .error e =>
      match fuel with
      | 0 => .error e
      | f + 1 => retryGo fn (attempt + 1) f

/-- Mirrors `retryWithBackoff`: attempts `0 … maxRetries`, first success wins,
otherwise the last error is rethrown. -/
def retryWithBackoff {a : Type} (fn : Nat → Except String a) (maxRetries : Nat := 3) :
    Except String a :=
  retryGo fn 0 maxRetries

/-- The flat text view: non-empty passage texts joined by single spaces. -/
def transcriptText (docs : List Doc) : String :=
  String.mk (joinSep [' ']
    ((docs.map (fun d => d.pageContent.data)).filter (fun c => 0 < c.length)))

/-- Mirrors `fetchTranscript`.  The external YouTube loader is the function
`loader`, giving the outcome of each attempt; everything else is the source's
control flow: blank input and unextractable ids fail before the `try` block
(unwrapped), errors inside it — including the zero-passages throw — are
wrapped in the `Failed to fetch transcript` message. -/
def fetchTranscript (videoUrlOrId : String) (loader : Nat → Except String (List Doc))
    (maxRetries : Nat := 3) : Except String TranscriptResult :=
  if jsBlank videoUrlOrId then .error "Video URL or ID is required"
  else
    match extractVideoId videoUrlOrId with
    | none => .error ("Invalid YouTube URL or video ID: " ++ videoUrlOrId)
    | some id =>
      match retryWithBackoff loader maxRetries with
      | .error e => .error ("Failed to fetch transcript for video " ++ id ++ ": " ++ e)
      | .ok docs =>
        if docs.length = 0 then
          .error ("Failed to fetch transcript for video " ++ id ++ ": " ++
            ("No transcript found for video: " ++ id))
        else .ok ⟨id, transcriptText docs, docs⟩



/-! ## src/unnamed/part_001 (compression): ContextualCompressor -/

/-- Sentence-terminating punctuation, the regex class `[.!?]+`. -/
def isPunct (c : Char) : Bool := c = '.' || c = '!' || c = '?'

/-- Stable insertion into a descending-by-score list: the new element goes
before the first element whose score is not greater.  Elements that compare
equal keep their original relative order, exactly as JavaScript's stable
`sort((a, b) => b.score - a.score)` arranges them. -/
def insertDesc (x : List Char × Nat) : List (List Char × Nat) → List (List Char × Nat)
  | [] => [x]
  | y :: ys => if y.2 ≤ x.2 then x :: y :: ys else y :: insertDesc x ys

/-- Stable descending sort by score (insertion sort), the unique output of a
stable sort under the comparator `(a, b) => b.score - a.score`. -/
def sortByScoreDesc : List (List Char × Nat) → List (List Char × Nat)
  | [] => []
  | x :: xs => insertDesc x (sortByScoreDesc xs)

namespace ContextualCompressor

/-- The `queryTerms` binding of `extractRelevantSentences`: lowercased
whitespace-split words longer than 3 characters. -/
def queryTermsOf (query : List Char) : List (List Char) :=
  (splitRuns jsWs (lowerChars query)).filter (fun term => 3 < term.length)

/-- The `sentences` binding: split on terminal punctuation, trim, keep
fragments longer than 20 characters. -/
def sentencesOf (text : List Char) : List (List Char) :=
  ((splitRuns isPunct text).map trimChars).filter (fun s => 20 < s.length)

/-- The per-sentence score: how many query terms the lowercased sentence
contains. -/
def scoreOf (queryTerms : List (List Char)) (sentence : List Char) : Nat :=
  (queryTerms.filter (fun term => containsSub (lowerChars sentence) term)).length

/-- The `topSentences` binding: sort by descending score (stably, as
JavaScript `sort` is), take the top `maxSentences`, keep only sentences with
at least one match. -/
def topSentencesOf (text query : List Char) (maxSentences : Nat) : List (List Char) :=
  (((sortByScoreDesc ((sentencesOf text).map
      (fun sentence => (sentence, scoreOf (queryTermsOf query) sentence)))).take
      maxSentences).filter (fun x => 0 < x.2)).map (fun x => x.1)

/-- Mirrors the static `extractRelevantSentences`: the scored top sentences,
or — when nothing scored above zero — the leading sentences; either way
re-joined with `". "` and a final appended `"."`. -/
def extractRelevantSentences (text query : List Char) (maxSentences : Nat := 3) :
    List Char :=
  if (topSentencesOf text query maxSentences).isEmpty then
    joinSep ". ".data ((sentencesOf text).take maxSentences) ++ ['.']
  else
    joinSep ". ".data (topSentencesOf text query maxSentences) ++ ['.']

/-- Mirrors `compressDocument`.  The Model call is the explicit
`modelResponse` parameter (`.error` models a rejected call, handled by the
`catch`, which falls back to the original content).  `content` is the model
response trimmed.  The acceptance test
`compressedLength < originalLength * 0.8` is modelled by the exact rational
comparison `5 * c < 4 * orig`; at the few lengths where binary floating point
could disagree by one, the accepted text is still never longer than the
original, which is all that is proved below. -/
def compressDocument (pageContent : String) (query : String)
    (modelResponse : Except Unit String) : String × Bool :=
  match modelResponse with
  | .error _ => (pageContent, false)
  | .ok raw =>
    if String.mk (trimChars raw.data) = "NOT_RELEVANT"
        ∨ String.mk (trimChars raw.data) = "" then ("", true)
    else if 5 * (String.mk (trimChars raw.data)).data.length
        < 4 * pageContent.data.length then (String.mk (trimChars raw.data), true)
    else (pageContent, false)

end ContextualCompressor

/-- Mirrors `quickCompress`: heuristic compression of each document. -/
def quickCompress (docs : List Doc) (query : String) (sentencesPerDoc : Nat := 2) :
    List (Doc × List Char) :=
  docs.map (fun doc =>
    (doc, ContextualCompressor.extractRelevantSentences
      doc.pageContent.data query.data sentencesPerDoc))

/-! ## src/unnamed/part_003 (rag): queryRag -/

/-- A retrieved document: its text and the `startTime` metadata field read by
the context formatter (other metadata is never inspected by `queryRag`). -/
structure RagDoc where
  pageContent : String
  startTime : Option Nat

/-- Mirrors `formatTimestamp`: `MM:SS` with a zero-padded seconds field. -/
def formatTimestamp (seconds : Nat) : String :=
  let mins := seconds / 60
  let secs := seconds % 60
  toString mins ++ ":" ++ (if secs < 10 then "0" ++ toString secs else toString secs)

/-- Renders `(score * 100).toFixed(1) + "%"` over exact rationals as
`⌊score * 1000⌋` split into integer and tenths digits; rounding of the binary
float is not modelled (no theorem below depends on this rendering). -/
def renderPercent (score : ℚ) : String :=
  let m : Int := (score * 1000).floor
  toString (m / 10) ++ "." ++ toString (m % 10) ++ "%"

/-- One formatted excerpt block of the context. -/
def formatExcerpt (index : Nat) (doc : RagDoc) (score : ℚ) : String :=
  let timestamp :=
    match doc.startTime with
    | some t => "[" ++ formatTimestamp t ++ "]"
    | none => ""
  "Excerpt #" ++ toString (index + 1) ++ " " ++ timestamp ++ " (relevance: " ++
    renderPercent score ++ "):\n" ++ doc.pageContent ++ "\n"

/-- The context block: excerpts joined by a separator line. -/
def formatContext (results : List (RagDoc × ℚ)) : String :=
  String.intercalate "\n---\n" (results.mapIdx (fun i r => formatExcerpt i r.1 r.2))

/-- The success shape of `queryRag`. -/
structure QueryResult where
  context : String
  results : List (RagDoc × ℚ)
  compressionUsed : Bool

/-- The per-result rebuild of the compression branch: `quickCompress` the
document text (top 3 sentences) and keep the metadata and score. -/
def compressPair (question : String) (r : RagDoc × ℚ) : RagDoc × ℚ :=
  (⟨String.mk (ContextualCompressor.extractRelevantSentences
      r.1.pageContent.data question.data 3), r.1.startTime⟩, r.2)

/-- Mirrors `queryRag`.  The Pinecone-backed store
(`fromExistingIndex` + `similaritySearchWithScore`) is the explicit `backing`
function from the requested result count to either the ranked matches or the
error the backing call throws; `queryRag` itself installs no error handler
and performs no namespace-existence check.  Pinecone's query returns an empty
match list — not an error — for a namespace that does not exist, so
`backing _ = .ok []` covers both the empty-namespace and the
missing-namespace case. -/
def queryRag (backing : Nat → Except String (List (RagDoc × ℚ)))
    (question : String) (k : Nat := 4) (useCompression : Bool := false) :
    Except String QueryResult :=
  let retrievalK := if useCompression then min (k * 2) 10 else k
  match backing retrievalK with
  | .error e => .error e
  | .ok resultsWithScores =>
    let processedResults :=
      if useCompression && decide (0 < resultsWithScores.length) then
        ((resultsWithScores.map (compressPair question)).filter
          (fun r => 0 < (trimChars r.1.pageContent.data).length)).take k
      else resultsWithScores
    .ok ⟨formatContext processedResults, processedResults, useCompression⟩



/-! ## src/pages/api/ask.ts: the SSE streaming handler

The LangChain agent is external: the handler model consumes the chunk list
the stream yielded and an optional error with which the stream (or the
initial `agent.stream` call) rejected afterwards.  `res.write`/`res.end` are
transport-level and assumed non-throwing. -/

/-- One element of an array-valued message content: a string, or an object
whose `text` property is read (`c.text || ""`). -/
inductive ContentPart where
  | str (s : String)
  | obj (text : Option String)

/-- A message content value as the handler inspects it: a string, an array of
parts, or some other object (rendered by `String(content)`). -/
inductive MsgContent where
  | str (s : String)
  | arr (parts : List ContentPart)
  | other (rendering : String)

/-- The text of one array part: `typeof c === "string" ? c : c.text || ""`. -/
def partText : ContentPart → String
  | .str s => s
  | .obj (some t) => t
  | .obj none => ""

/-- The extracted content text of the token branch. -/
def contentText : Option MsgContent → String
  | some (.str s) => s
  | some (.arr ps) => String.join (ps.map partText)
  | some (.other r) => r
  | none => ""

/-- JavaScript truthiness of `lastMessage.content`: null/undefined and the
empty string are falsy; arrays and other objects are truthy. -/
def contentTruthy : Option MsgContent → Bool
  | none => false
  | some (.str s) => s ≠ ""
  | some (.arr _) => true
  | some (.other _) => true

/-- One entry of `lastMessage.tool_calls`. -/
structure ToolCall where
  name : String
  args : JsValue

/-- A LangChain message as the handler reads it.  `tool_calls = []` also
models an absent `tool_calls` property (both are falsy for
`tool_calls?.length`); `name` is the tool name of tool messages. -/
structure Msg where
  type : String
  content : Option MsgContent
  tool_calls : List ToolCall
  name : Option String

/-- One chunk of the `values`-mode stream: its `messages` array.  The handler
reads `messages.at(messages.length - 1)`, i.e. the last message. -/
structure Chunk where
  messages : List Msg

/-- Stands in for `JSON.stringify(lastMessage.content || "")` inside the
token dedup key: a rendering under which equal content values get equal keys
(the only property of the key the handler's behaviour and the theorems rely
on), with falsy content rendered like the empty string as the source's
`|| ""` does. -/
def contentKey : Option MsgContent → String
  | none => "e"
  | some (.str s) => if s = "" then "e" else "s:" ++ s
  | some (.arr ps) => "a:" ++ String.join (ps.map (fun p =>
      match p with
      | .str s => "s:" ++ s ++ ";"
      | .obj none => "o:;"
      | .obj (some t) => "o:" ++ t ++ ";"))
  | some (.other r) => "o:" ++ r

/-- The dedup key `` `${lastMessage.type}-${JSON.stringify(...)}` ``. -/
def messageKey (m : Msg) : String := m.type ++ "-" ++ contentKey m.content

/-- The key `` `tool-${lastMessage.name}` `` (an absent name renders as
`undefined`). -/
def toolKeyOf (m : Msg) : String :=
  "tool-" ++ (match m.name with | some n => n | none => "undefined")

/-- The events the handler writes to the SSE response. -/
inductive Ev where
  | token (content : String)
  | tool_start (tool : String) (args : JsValue)
  | tool_end (tool : String) (result : String)
  | done
  | error (message : String)

/-- The handler's per-request mutable state: `messageBuffer`, `lastToolName`,
`sentMessages`. -/
structure SState where
  messageBuffer : String
  lastToolName : String
  sentMessages : List String

/-- The initial state of a request. -/
def initState : SState := ⟨"", "", []⟩

/-- The final-answer branch: an `ai` message with truthy content and no tool
calls emits one `token` event when its text is nonempty, differs from the
last emitted text and its key was not sent before. -/
def tokenStep (st : SState) (m : Msg) : List Ev × SState :=
  if m.type = "ai" ∧ contentTruthy m.content = true ∧ m.tool_calls.isEmpty = true then
    if contentText m.content ≠ "" ∧ contentText m.content ≠ st.messageBuffer
        ∧ messageKey m ∉ st.sentMessages then
      ([.token (sanitizeHTML (contentText m.content))],
       ⟨contentText m.content, st.lastToolName, messageKey m :: st.sentMessages⟩)
    else ([], st)
  else ([], st)

/-- The tool-call branch: the first tool call of an `ai` message emits
`tool_start` when its name differs from the LAST observed tool name. -/
def toolStartStep (st : SState) (m : Msg) : List Ev × SState :=
  match m.tool_calls with
  | [] => ([], st)
  | toolCall :: _ =>
    if m.type = "ai" then
      if toolCall.name ≠ st.lastToolName then
        ([.tool_start (sanitizeHTML toolCall.name) (sanitizeToolArgs toolCall.args)],
         ⟨st.messageBuffer, toolCall.name, st.sentMessages⟩)
      else ([], st)
    else ([], st)

/-- The tool-result branch: a `tool` message emits `tool_end` once per
`tool-`-prefixed key. -/
def toolEndStep (st : SState) (m : Msg) : List Ev × SState :=
  if m.type = "tool" then
    if toolKeyOf m ∉ st.sentMessages then
      ([.tool_end (sanitizeHTML (match m.name with | some n => n | none => ""))
          (match m.content with
            | some (.str s) => truncate (sanitizeHTML s) 200
            | _ => "Result received")],
       ⟨st.messageBuffer, st.lastToolName, toolKeyOf m :: st.sentMessages⟩)
    else ([], st)
  else ([], st)

/-- Processing one message: the three independent branches in source order. -/
def processMsg (st : SState) (m : Msg) : List Ev × SState :=
  ((tokenStep st m).1 ++ (toolStartStep (tokenStep st m).2 m).1
    ++ (toolEndStep (toolStartStep (tokenStep st m).2 m).2 m).1,
   (toolEndStep (toolStartStep (tokenStep st m).2 m).2 m).2)

/-- Processing one chunk: its last message, when present. -/
def processChunk (st : SState) (ch : Chunk) : List Ev × SState :=
  match ch.messages.getLast? with
  | none => ([], st)
  | some m => processMsg st m

/-- The `for await` loop over the stream's chunks. -/
def processLoop (st : SState) : List Chunk → List Ev × SState
  | [] => ([], st)
  | ch :: rest =>
    ((processChunk st ch).1 ++ (processLoop (processChunk st ch).2 rest).1,
     (processLoop (processChunk st ch).2 rest).2)

/-- All events the loop emits for a full stream. -/
def processStream (chunks : List Chunk) : List Ev :=
  (processLoop initState chunks).1

/-- The request body and method. -/
structure AskReq where
  method : String
  url : Option String
  question : Option String

/-- The handler's possible responses: a plain JSON response (405 for a
non-POST method, before the SSE stream opens), or an SSE event stream. -/
inductive HandlerOut where
  | jsonResp (status : Nat) (message : String)
  | sse (events : List Ev)

/-- `!x?.trim()` on an optional field. -/
def jsBlankOpt : Option String → Bool
  | none => true
  | some s => jsBlank s

/-- The validation sequence of the handler; the first failing check throws a
`ValidationError` with this message. -/
def validationError (req : AskReq) : Option String :=
  if jsBlankOpt req.url then
    some "URL parameter is required and cannot be empty"
  else if jsBlankOpt req.question then
    some "Question parameter is required and cannot be empty"
  else if !(containsSub (req.url.getD "").data "youtube.com".data
      || containsSub (req.url.getD "").data "youtu.be".data) then
    some "Invalid YouTube URL. Please provide a valid youtube.com or youtu.be URL"
  else if 500 < (req.question.getD "").data.length then
    some "Question is too long. Maximum 500 characters allowed"
  else none

/-- Mirrors `handler`: a non-POST method gets a 405 JSON response; a
validation failure is caught and emitted as a single sanitized `error` event;
otherwise the stream chunks are processed and the stream is terminated by
`done`, or by a single sanitized `error` event when the agent stream (or its
creation) rejected with `streamFail` after yielding `chunks`. -/
def handler (req : AskReq) (chunks : List Chunk) (streamFail : Option String) :
    HandlerOut :=
  if req.method ≠ "POST" then .jsonResp 405 "Only POST requests are accepted"
  else
    match validationError req with
    | some msg => .sse [.error (sanitizeErrorMessageStr msg)]
    | none =>
      match streamFail with
      | none => .sse (processStream chunks ++ [.done])
      | some e => .sse (processStream chunks ++ [.error (sanitizeErrorMessageStr e)])

/-- Terminator events. -/
def isTerminal : Ev → Bool
  | .done => true
  | .error _ => true
  | _ => false

/-- The contents of the `token` events of a stream, in order. -/
def tokenContents (evs : List Ev) : List String :=
  evs.filterMap (fun e => match e with | .token c => some c | _ => none)

/-- The tool names of the `tool_start` events of a stream, in order. -/
def toolStartNames (evs : List Ev) : List String :=
  evs.filterMap (fun e => match e with | .tool_start n _ => some n | _ => none)

/-- The observed tool-call name of a chunk: the first tool call of its last
message when that is an `ai` message with tool calls. -/
def toolCallNameOf (ch : Chunk) : Option String :=
  match ch.messages.getLast? with
  | some m =>
    match m.tool_calls with
    | [] => none
    | toolCall :: _ => if m.type = "ai" then some toolCall.name else none
  | none => none

/-- The observed tool-call names of a stream. -/
def toolCallNames (chunks : List Chunk) : List String :=
  chunks.filterMap toolCallNameOf

/-- Collapse consecutive duplicates, keeping a name only when it differs from
the previously kept one (seeded with the initial `lastToolName = ""`). -/
def dedupConsec (last : String) : List String → List String
  | [] => []
  | n :: ns => if n = last then dedupConsec last ns else n :: dedupConsec n ns

/-- Whether a dedup key is a `tool-` key. -/
def isToolKey (k : String) : Bool := "tool-".data.isPrefixOf k.data

/-- An `ai` final-answer message: truthy content, no tool calls. -/
def IsAnswerMsg (m : Msg) : Prop :=
  m.type = "ai" ∧ contentTruthy m.content = true ∧ m.tool_calls.isEmpty = true

/-- A chunk whose last message is a final-answer message with extracted text
`c`. -/
def isAnswerChunkFor (c : String) (ch : Chunk) : Bool :=
  match ch.messages.getLast? with
  | some m => decide (m.type = "ai") && contentTruthy m.content
      && m.tool_calls.isEmpty && decide (contentText m.content = c)
  | none => false

/-- Values-mode snapshot discipline for answer text `c`: every final-answer
message in the stream carries either the full text `c` or (an intermediate)
empty text. -/
def answerTextOk (c : String) (ch : Chunk) : Bool :=
  match ch.messages.getLast? with
  | some m => !(decide (m.type = "ai") && contentTruthy m.content
        && m.tool_calls.isEmpty)
      || decide (contentText m.content = c) || decide (contentText m.content = "")
  | none => true


end YTR

namespace YTR
/-! ## Helper lemmas -/

theorem setRecord_self (st : RLStore) (identifier : String) (r : RLRecord) :
    setRecord st identifier r identifier = some r := by
  simp [setRecord]

theorem setRecord_other (st : RLStore) (identifier j : String) (r : RLRecord)
    (h : j ≠ identifier) : setRecord st identifier r j = st j := by
  simp [setRecord, h]

theorem setRecord_collapse (st : RLStore) (identifier : String) (r r' : RLRecord) :
    setRecord (setRecord st identifier r) identifier r' = setRecord st identifier r' := by
  funext j
  by_cases h : j = identifier <;> simp [setRecord, h]

theorem no_markup_of_all (l : List Char)
    (h : l.all (fun c => !(c = '<' || c = '>')) = true) :
    ∀ c ∈ l, c ≠ '<' ∧ c ≠ '>' := by
  intro c hc
  have := List.all_eq_true.mp h c hc
  simpa using this

theorem htmlEscapeChar_no_markup (a c : Char) (hc : c ∈ htmlEscapeChar a) :
    c ≠ '<' ∧ c ≠ '>' := by
  unfold htmlEscapeChar at hc
  by_cases h1 : a = '&'
  · rw [if_pos h1] at hc
    exact no_markup_of_all _ (by decide) c hc
  · rw [if_neg h1] at hc
    by_cases h2 : a = '<'
    · rw [if_pos h2] at hc
      exact no_markup_of_all _ (by decide) c hc
    · rw [if_neg h2] at hc
      by_cases h3 : a = '>'
      · rw [if_pos h3] at hc
        exact no_markup_of_all _ (by decide) c hc
      · rw [if_neg h3] at hc
        by_cases h4 : a = quoteChar
        · rw [if_pos h4] at hc
          exact no_markup_of_all _ (by decide) c hc
        · rw [if_neg h4] at hc
          by_cases h5 : a = aposChar
          · rw [if_pos h5] at hc
            exact no_markup_of_all _ (by decide) c hc
          · rw [if_neg h5] at hc
            by_cases h6 : a = '/'
            · rw [if_pos h6] at hc
              exact no_markup_of_all _ (by decide) c hc
            · rw [if_neg h6] at hc
              simp only [List.mem_singleton] at hc
              subst hc
              exact ⟨h2, h3⟩

theorem sanitizeHTML_no_markup (s : String) :
    ∀ c ∈ (sanitizeHTML s).data, c ≠ '<' ∧ c ≠ '>' := by
  intro c hc
  simp only [sanitizeHTML] at hc
  rw [List.mem_flatten] at hc
  obtain ⟨l, hl, hcl⟩ := hc
  rw [List.mem_map] at hl
  obtain ⟨a, _, rfl⟩ := hl
  exact htmlEscapeChar_no_markup a c hcl

/-! ## Theorems: sanitize (C9) -/

/-- C9: for every error value, the surfaced message either matches one of the
allowlisted safe patterns and is the HTML-escaped original message, or it is
the fixed generic message; in both cases no raw markup characters survive. -/
theorem sanitizeErrorMessage_allowlist (e : JsError) :
    ((matchesSafePattern (errMessageOf e) = true ∧
        sanitizeErrorMessage e = sanitizeHTML (errMessageOf e)) ∨
      (matchesSafePattern (errMessageOf e) = false ∧
        sanitizeErrorMessage e = genericErrorMessage)) ∧
    (∀ c ∈ (sanitizeErrorMessage e).data, c ≠ '<' ∧ c ≠ '>') := by
  by_cases h : matchesSafePattern (errMessageOf e)
  · refine ⟨.inl ⟨h, ?_⟩, ?_⟩
    · simp [sanitizeErrorMessage, h]
    · intro c hc
      rw [show sanitizeErrorMessage e = sanitizeHTML (errMessageOf e) by
        simp [sanitizeErrorMessage, h]] at hc
      exact sanitizeHTML_no_markup _ c hc
  · refine ⟨.inr ⟨by simpa using h, ?_⟩, ?_⟩
    · simp [sanitizeErrorMessage, h]
    · intro c hc
      rw [show sanitizeErrorMessage e = genericErrorMessage by
        simp [sanitizeErrorMessage, h]] at hc
      exact no_markup_of_all _ (by decide) c hc

/-! ## Rate limiter step lemmas -/

theorem isAllowed_none (rl : RateLimiter) (st : RLStore) (identifier : String)
    (now : Nat) (hst : st identifier = none) :
    rl.isAllowed st identifier now
      = (true, setRecord st identifier ⟨1, now + rl.windowMs⟩) := by
  simp only [RateLimiter.isAllowed, hst]

theorem isAllowed_expired (rl : RateLimiter) (st : RLStore) (identifier : String)
    (now : Nat) (record : RLRecord) (hst : st identifier = some record)
    (h : record.resetTime < now) :
    rl.isAllowed st identifier now
      = (true, setRecord st identifier ⟨1, now + rl.windowMs⟩) := by
  simp only [RateLimiter.isAllowed, hst]
  rw [if_pos h]

theorem isAllowed_increment (rl : RateLimiter) (st : RLStore) (identifier : String)
    (now : Nat) (record : RLRecord) (hst : st identifier = some record)
    (h1 : now ≤ record.resetTime) (h2 : record.count < rl.maxRequests) :
    rl.isAllowed st identifier now
      = (true, setRecord st identifier ⟨record.count + 1, record.resetTime⟩) := by
  simp only [RateLimiter.isAllowed, hst]
  rw [if_neg (by omega), if_pos h2]

theorem isAllowed_denied (rl : RateLimiter) (st : RLStore) (identifier : String)
    (now : Nat) (record : RLRecord) (hst : st identifier = some record)
    (h1 : now ≤ record.resetTime) (h2 : rl.maxRequests ≤ record.count) :
    rl.isAllowed st identifier now = (false, st) := by
  simp only [RateLimiter.isAllowed, hst]
  rw [if_neg (by omega), if_neg (by omega)]

theorem getInfo_active (rl : RateLimiter) (st : RLStore) (identifier : String)
    (now : Nat) (record : RLRecord) (hst : st identifier = some record)
    (h : now ≤ record.resetTime) :
    rl.getInfo st identifier now
      = ⟨max 0 ((rl.maxRequests : Int) - record.count), record.resetTime, rl.maxRequests⟩ := by
  simp only [RateLimiter.getInfo, hst]
  rw [if_neg (by omega)]

theorem setRecord_preserves (maxR : Nat) (st : RLStore) (hinv : StoreBounded maxR st)
    (identifier : String) (r : RLRecord) (hr : r.count ≤ maxR) :
    StoreBounded maxR (setRecord st identifier r) := by
  intro j q hj
  by_cases hji : j = identifier
  · subst hji
    rw [setRecord_self] at hj
    cases hj
    exact hr
  · rw [setRecord_other st identifier j r hji] at hj
    exact hinv j q hj

theorem runCalls_filled (rl : RateLimiter) (identifier : String) (R : Nat) :
    ∀ (ts : List Nat) (st : RLStore) (c : Nat),
      st identifier = some ⟨c, R⟩ →
      (∀ s ∈ ts, s ≤ R) →
      c + ts.length ≤ rl.maxRequests →
      runCalls rl st identifier ts =
        (List.replicate ts.length true, setRecord st identifier ⟨c + ts.length, R⟩) := by
  intro ts
  induction ts with
  | nil =>
    intro st c hst _ _
    simp only [runCalls, List.length_nil, List.replicate_zero, Nat.add_zero]
    refine Prod.ext rfl ?_
    funext j
    by_cases h : j = identifier
    · subst h
      simp [setRecord, hst]
    · simp [setRecord, h]
  | cons t ts ih =>
    intro st c hst hin hle
    have hlc : (t :: ts).length = ts.length + 1 := rfl
    have ht : t ≤ R := hin t (List.mem_cons_self t ts)
    have hc : c < rl.maxRequests := by omega
    have step := isAllowed_increment rl st identifier t ⟨c, R⟩ hst ht hc
    have hst' : setRecord st identifier ⟨c + 1, R⟩ identifier = some ⟨c + 1, R⟩ :=
      setRecord_self _ _ _
    have hrest := ih (setRecord st identifier ⟨c + 1, R⟩) (c + 1) hst'
      (fun s hs => hin s (List.mem_cons_of_mem _ hs)) (by omega)
    simp only [runCalls, step, hrest, setRecord_collapse, hlc, List.replicate_succ]
    refine Prod.ext rfl ?_
    have harith : c + 1 + ts.length = c + (ts.length + 1) := by omega
    show setRecord st identifier ⟨c + 1 + ts.length, R⟩
        = setRecord st identifier ⟨c + (ts.length + 1), R⟩
    rw [harith]

/-! ## Theorems: rate limiter (C8, C10) -/

/-- C8: with the deployed limit of 10 requests per 60000 ms window and a fixed
identifier, ten calls inside the window are all allowed (in particular the
10th), an 11th call strictly inside the window is denied and the middleware
derives a strictly positive retry-after from the window state, and the first
call after the window's reset time has passed is allowed again and stores a
fresh record with count 1. -/
theorem rateLimiter_window_scenario
    (t t11 t12 : Nat) (ts : List Nat) (identifier : String)
    (hlen : ts.length = 9)
    (hin : ∀ s ∈ ts, s ≤ t + 60000)
    (h11 : t11 < t + 60000)
    (h12 : t + 60000 < t12) :
    runCalls theRateLimiter emptyStore identifier (t :: ts)
        = (List.replicate 10 true,
           setRecord emptyStore identifier ⟨10, t + 60000⟩) ∧
    (theRateLimiter.isAllowed
        (runCalls theRateLimiter emptyStore identifier (t :: ts)).2 identifier t11).1
        = false ∧
    (withRateLimit theRateLimiter
        (runCalls theRateLimiter emptyStore identifier (t :: ts)).2 identifier t11).1
        = some (ceilDiv1000 (t + 60000 - t11)) ∧
    0 < ceilDiv1000 (t + 60000 - t11) ∧
    theRateLimiter.isAllowed
        (runCalls theRateLimiter emptyStore identifier (t :: ts)).2 identifier t12
        = (true, setRecord (setRecord emptyStore identifier ⟨10, t + 60000⟩)
            identifier ⟨1, t12 + 60000⟩) := by
  have step1 : theRateLimiter.isAllowed emptyStore identifier t
      = (true, setRecord emptyStore identifier ⟨1, t + 60000⟩) :=
    isAllowed_none theRateLimiter emptyStore identifier t rfl
  have hrest := runCalls_filled theRateLimiter identifier (t + 60000) ts
    (setRecord emptyStore identifier ⟨1, t + 60000⟩) 1
    (setRecord_self _ _ _) hin (by rw [hlen]; decide)
  have hrun : runCalls theRateLimiter emptyStore identifier (t :: ts)
      = (List.replicate 10 true, setRecord emptyStore identifier ⟨10, t + 60000⟩) := by
    simp only [runCalls, step1, hrest, setRecord_collapse, hlen]
    rfl
  have hrec : (runCalls theRateLimiter emptyStore identifier (t :: ts)).2 identifier
      = some ⟨10, t + 60000⟩ := by
    rw [hrun]
    exact setRecord_self _ _ _
  have hdeny := isAllowed_denied theRateLimiter
    (runCalls theRateLimiter emptyStore identifier (t :: ts)).2 identifier t11
    ⟨10, t + 60000⟩ hrec (by show t11 ≤ t + 60000; omega) (le_refl 10)
  refine ⟨hrun, by rw [hdeny], ?_, ?_, ?_⟩
  · have hinfo := getInfo_active theRateLimiter
      (runCalls theRateLimiter emptyStore identifier (t :: ts)).2 identifier t11
      ⟨10, t + 60000⟩ hrec (by show t11 ≤ t + 60000; omega)
    simp only [withRateLimit, hinfo, hdeny]
    rfl
  · show 0 < (t + 60000 - t11 + 999) / 1000
    omega
  · rw [hrun]
    have := isAllowed_expired theRateLimiter
      (setRecord emptyStore identifier ⟨10, t + 60000⟩) identifier t12
      ⟨10, t + 60000⟩ (setRecord_self _ _ _) (by show t + 60000 < t12; omega)
    exact this

/-- C8 witness: the scenario at concrete times. -/
theorem rateLimiter_window_scenario_witness :
    runCalls theRateLimiter emptyStore "1.2.3.4"
        [1000, 1001, 1002, 1003, 1004, 1005, 1006, 1007, 1008, 1009]
        = (List.replicate 10 true,
           setRecord emptyStore "1.2.3.4" ⟨10, 61000⟩) ∧
    (theRateLimiter.isAllowed
        (runCalls theRateLimiter emptyStore "1.2.3.4"
          [1000, 1001, 1002, 1003, 1004, 1005, 1006, 1007, 1008, 1009]).2
        "1.2.3.4" 2000).1 = false ∧
    (withRateLimit theRateLimiter
        (runCalls theRateLimiter emptyStore "1.2.3.4"
          [1000, 1001, 1002, 1003, 1004, 1005, 1006, 1007, 1008, 1009]).2
        "1.2.3.4" 2000).1 = some (ceilDiv1000 (1000 + 60000 - 2000)) ∧
    0 < ceilDiv1000 (1000 + 60000 - 2000) ∧
    theRateLimiter.isAllowed
        (runCalls theRateLimiter emptyStore "1.2.3.4"
          [1000, 1001, 1002, 1003, 1004, 1005, 1006, 1007, 1008, 1009]).2
        "1.2.3.4" 70000
        = (true, setRecord (setRecord emptyStore "1.2.3.4" ⟨10, 61000⟩)
            "1.2.3.4" ⟨1, 130000⟩) := by
  have h := rateLimiter_window_scenario 1000 2000 70000
    [1001, 1002, 1003, 1004, 1005, 1006, 1007, 1008, 1009] "1.2.3.4"
    (by decide) (by intro s hs; fin_cases hs <;> decide) (by decide) (by decide)
  exact h

/-- C10: the stored count never exceeds the configured maximum: provided the
maximum is at least 1 (the deployed limiter uses 10), `isAllowed`, `cleanup`
and `reset` all preserve boundedness of every stored record, and `getInfo`
reports a nonnegative remaining budget. -/
theorem rateLimiter_count_invariant (rl : RateLimiter) (hmax : 1 ≤ rl.maxRequests)
    (st : RLStore) (hinv : StoreBounded rl.maxRequests st)
    (identifier other : String) (now : Nat) :
    StoreBounded rl.maxRequests (rl.isAllowed st identifier now).2 ∧
    StoreBounded rl.maxRequests (rl.cleanup st now) ∧
    StoreBounded rl.maxRequests (rl.reset st identifier) ∧
    0 ≤ (rl.getInfo st other now).remaining := by
  refine ⟨?_, ?_, ?_, ?_⟩
  · cases hst : st identifier with
    | none =>
      rw [isAllowed_none rl st identifier now hst]
      exact setRecord_preserves _ st hinv identifier _ hmax
    | some record =>
      by_cases hexp : record.resetTime < now
      · rw [isAllowed_expired rl st identifier now record hst hexp]
        exact setRecord_preserves _ st hinv identifier _ hmax
      · by_cases hcnt : record.count < rl.maxRequests
        · rw [isAllowed_increment rl st identifier now record hst (by omega) hcnt]
          exact setRecord_preserves _ st hinv identifier _
            (by show record.count + 1 ≤ rl.maxRequests; omega)
        · rw [isAllowed_denied rl st identifier now record hst (by omega) (by omega)]
          exact hinv
  · intro j r hj
    have hcl : rl.cleanup st now j =
        match st j with
        | some q => if now > q.resetTime then none else some q
        | none => none := rfl
    rw [hcl] at hj
    cases hst : st j with
    | none =>
      rw [hst] at hj
      cases hj
    | some q =>
      rw [hst] at hj
      have hj' : (if now > q.resetTime then none else some q) = some r := hj
      by_cases hexp : now > q.resetTime
      · rw [if_pos hexp] at hj'
        cases hj'
      · rw [if_neg hexp] at hj'
        injection hj' with hqr
        subst hqr
        exact hinv j q hst
  · intro j r hj
    unfold RateLimiter.reset removeRecord at hj
    by_cases hji : j = identifier
    · simp [hji] at hj
    · simp only [if_neg hji] at hj
      exact hinv j r hj
  · unfold RateLimiter.getInfo
    cases hst : st other with
    | none => simp
    | some record =>
      by_cases hexp : now > record.resetTime
      · simp [hexp]
      · simp only [if_neg hexp]
        exact le_max_left 0 _

/-- C10 witness: the invariant theorem applied to the deployed limiter, an
empty store and concrete identifiers. -/
theorem rateLimiter_count_invariant_witness :
    StoreBounded theRateLimiter.maxRequests
        (theRateLimiter.isAllowed emptyStore "a" 5).2 ∧
    StoreBounded theRateLimiter.maxRequests (theRateLimiter.cleanup emptyStore 5) ∧
    StoreBounded theRateLimiter.maxRequests (theRateLimiter.reset emptyStore "a") ∧
    0 ≤ (theRateLimiter.getInfo emptyStore "b" 5).remaining :=
  rateLimiter_count_invariant theRateLimiter (by decide) emptyStore
    (fun identifier r h => by simp [emptyStore] at h) "a" "b" 5


/-! ## Loader helper lemmas -/

theorem orElse_some {a : Type} (x : a) (f : Unit → Option a) :
    (some x).orElse f = some x := rfl

theorem orElse_none {a : Type} (f : Unit → Option a) :
    (none : Option a).orElse f = f () := rfl

theorem stripPre_eq_append (pre : List Char) :
    ∀ l r : List Char, stripPre pre l = some r ↔ l = pre ++ r := by
  induction pre with
  | nil =>
    intro l r
    simp [stripPre]
  | cons p ps ih =>
    intro l r
    cases l with
    | nil => simp [stripPre]
    | cons c cs =>
      by_cases h : c = p
      · subst h
        simp only [stripPre, if_pos rfl, List.cons_append, List.cons.injEq, true_and]
        exact ih cs r
      · rw [show stripPre (p :: ps) (c :: cs) = none by simp [stripPre, h]]
        constructor
        · intro hf
          cases hf
        · intro hf
          rw [List.cons_append] at hf
          injection hf with h1 h2
          exact absurd h1 h

theorem stripPre_append (pre r : List Char) : stripPre pre (pre ++ r) = some r :=
  (stripPre_eq_append pre (pre ++ r) r).mpr rfl

theorem stripPre_none_of_idchars (pre l : List Char) (c0 : Char)
    (hbad : c0 ∈ pre) (hc0 : isIdChar c0 = false)
    (hall : l.all isIdChar = true) : stripPre pre l = none := by
  cases hres : stripPre pre l with
  | none => rfl
  | some r =>
    rw [stripPre_eq_append] at hres
    subst hres
    rw [List.all_append, Bool.and_eq_true] at hall
    have := List.all_eq_true.mp hall.1 c0 hbad
    rw [hc0] at this
    cases this

theorem stripScheme_idchars (l : List Char) (hall : l.all isIdChar = true) :
    stripScheme l = l := by
  unfold stripScheme
  rw [stripPre_none_of_idchars "https://".data l ':' (by decide) (by decide) hall,
    stripPre_none_of_idchars "http://".data l ':' (by decide) (by decide) hall]

theorem stripWww_idchars (l : List Char) (hall : l.all isIdChar = true) :
    stripWww l = l := by
  unfold stripWww
  rw [stripPre_none_of_idchars "www.".data l '.' (by decide) (by decide) hall]

theorem matchPatternAt_idchars (www : Bool) (host opens l : List Char)
    (hdot : '.' ∈ host) (hall : l.all isIdChar = true) :
    matchPatternAt www host opens l = none := by
  have hs : stripScheme l = l := stripScheme_idchars l hall
  have hw : stripWww l = l := stripWww_idchars l hall
  have hh : stripPre host l = none :=
    stripPre_none_of_idchars host l '.' hdot (by decide) hall
  simp only [matchPatternAt, hs, hw]
  cases www <;> simp [hh]

theorem all_of_suffix {t l : List Char} {p : Char → Bool} (h : t <:+ l)
    (hl : l.all p = true) : t.all p = true := by
  rw [List.all_eq_true] at hl ⊢
  exact fun x hx => hl x (h.sublist.subset hx)

theorem suffix_append_cases {t A B : List Char} (h : t <:+ A ++ B) :
    t <:+ B ∨ ∃ A2, A2 <:+ A ∧ t = A2 ++ B := by
  induction A generalizing t with
  | nil => exact .inl h
  | cons a A1 ih =>
    rw [show (a :: A1) ++ B = a :: (A1 ++ B) from rfl, List.suffix_cons_iff] at h
    rcases h with rfl | h2
    · exact .inr ⟨a :: A1, List.suffix_refl _, rfl⟩
    · rcases ih h2 with hB | ⟨A2, hA2, rfl⟩
      · exact .inl hB
      · exact .inr ⟨A2, hA2.trans (List.suffix_cons a A1), rfl⟩

theorem findMatch_head (m : List Char → Option (List Char)) (l v : List Char)
    (h : m l = some v) : findMatch m l = some v := by
  cases l with
  | nil => exact h
  | cons c t =>
    show (m (c :: t)).orElse (fun _ => findMatch m t) = some v
    rw [h]
    rfl

theorem findMatch_none (m : List Char → Option (List Char)) (l : List Char)
    (h : ∀ t, t <:+ l → m t = none) : findMatch m l = none := by
  induction l with
  | nil => exact h [] (List.suffix_refl _)
  | cons c cs ih =>
    show (m (c :: cs)).orElse (fun _ => findMatch m cs) = none
    rw [h (c :: cs) (List.suffix_refl _), orElse_none]
    exact ih (fun t ht => h t (ht.trans (List.suffix_cons c cs)))

theorem findMatch_skip (m : List Char → Option (List Char)) (A t : List Char)
    (h : ∀ A2, A2 <:+ A → A2 ≠ [] → m (A2 ++ t) = none) :
    findMatch m (A ++ t) = findMatch m t := by
  induction A with
  | nil => rfl
  | cons a A1 ih =>
    have hcons : findMatch m ((a :: A1) ++ t)
        = (m ((a :: A1) ++ t)).orElse (fun _ => findMatch m (A1 ++ t)) := rfl
    rw [hcons, h (a :: A1) (List.suffix_refl _) (by simp), orElse_none]
    exact ih (fun A2 h2 hne => h A2 (h2.trans (List.suffix_cons a A1)) hne)

theorem takeId_exact (v : List Char) (h11 : v.length = 11)
    (hall : v.all isIdChar = true) : takeId v = some (v, []) := by
  unfold takeId
  rw [List.take_of_length_le (by omega), List.drop_eq_nil_of_le (by omega)]
  rw [if_pos (by simp [h11, hall])]

theorem takeId_sound (r v rest : List Char) (h : takeId r = some (v, rest)) :
    v.length = 11 ∧ v.all isIdChar = true := by
  unfold takeId at h
  by_cases hg : (decide ((r.take 11).length = 11) && (r.take 11).all isIdChar) = true
  · rw [if_pos hg] at h
    injection h with hpair
    have hv : r.take 11 = v := congrArg Prod.fst hpair
    rw [Bool.and_eq_true, decide_eq_true_eq] at hg
    rw [← hv]
    exact hg
  · rw [if_neg hg] at h
    cases h

theorem matchPatternAt_sound (www : Bool) (host opens l v : List Char)
    (h : matchPatternAt www host opens l = some v) :
    v.length = 11 ∧ v.all isIdChar = true := by
  simp only [matchPatternAt] at h
  set l2 := if www then stripWww (stripScheme l) else stripScheme l with hl2
  cases hsp : stripPre host l2 with
  | none =>
    rw [hsp] at h
    cases h
  | some r =>
    rw [hsp, Option.some_bind] at h
    cases htk : takeId r with
    | none =>
      rw [htk] at h
      cases h
    | some p =>
      rw [htk, Option.some_bind] at h
      by_cases hs : suffixOk opens p.2 = true
      · rw [if_pos hs] at h
        injection h with hv
        subst hv
        exact takeId_sound r p.1 p.2 (by rw [htk])
      · rw [if_neg hs] at h
        cases h

theorem findMatch_sound (m : List Char → Option (List Char))
    (hm : ∀ l v, m l = some v → v.length = 11 ∧ v.all isIdChar = true)
    (l v : List Char) (h : findMatch m l = some v) :
    v.length = 11 ∧ v.all isIdChar = true := by
  induction l with
  | nil => exact hm [] v h
  | cons c cs ih =>
    rw [show findMatch m (c :: cs) = (m (c :: cs)).orElse (fun _ => findMatch m cs)
      from rfl] at h
    cases hm0 : m (c :: cs) with
    | some u =>
      rw [hm0, orElse_some] at h
      injection h with hu
      rw [← hu]
      exact hm (c :: cs) u hm0
    | none =>
      rw [hm0, orElse_none] at h
      exact ih h

theorem tryPatterns_sound (l v : List Char)
    (h : tryPatterns patternMatchers l = some v) :
    v.length = 11 ∧ v.all isIdChar = true := by
  have hsound : ∀ ms : List (List Char → Option (List Char)),
      (∀ m ∈ ms, ∀ l0 v0, m l0 = some v0 → v0.length = 11 ∧ v0.all isIdChar = true) →
      ∀ l0 v0, tryPatterns ms l0 = some v0 → v0.length = 11 ∧ v0.all isIdChar = true := by
    intro ms
    induction ms with
    | nil =>
      intro _ l0 v0 h0
      cases h0
    | cons m ms ih =>
      intro hms l0 v0 h0
      rw [show tryPatterns (m :: ms) l0
          = (findMatch m l0).orElse (fun _ => tryPatterns ms l0) from rfl] at h0
      cases hf : findMatch m l0 with
      | some u =>
        rw [hf, orElse_some] at h0
        injection h0 with hu
        rw [← hu]
        exact findMatch_sound m (hms m (List.mem_cons_self m ms)) l0 u hf
      | none =>
        rw [hf, orElse_none] at h0
        exact ih (fun m2 hm2 => hms m2 (List.mem_cons_of_mem m hm2)) l0 v0 h0
  refine hsound patternMatchers ?_ l v h
  intro m hm l0 v0 h0
  simp only [patternMatchers, List.mem_cons, List.not_mem_nil, or_false] at hm
  rcases hm with rfl | rfl | rfl | rfl
  · exact matchPatternAt_sound true _ _ l0 v0 h0
  · exact matchPatternAt_sound true _ _ l0 v0 h0
  · exact matchPatternAt_sound true _ _ l0 v0 h0
  · exact matchPatternAt_sound false _ _ l0 v0 h0


/-! ## Loader: the four URL shapes -/

theorem matchStandardAt_watchUrl (id : String) (h11 : id.data.length = 11)
    (hall : id.data.all isIdChar = true) :
    matchStandardAt ("https://www.youtube.com/watch?v=".data ++ id.data)
      = some id.data := by
  show ((takeId id.data).bind (fun p =>
      if suffixOk ['&', '?'] p.2 then some p.1 else none)) = some id.data
  rw [takeId_exact id.data h11 hall]
  rfl

theorem matchShortAt_shortUrl (id : String) (h11 : id.data.length = 11)
    (hall : id.data.all isIdChar = true) :
    matchShortAt ("https://youtu.be/".data ++ id.data) = some id.data := by
  show ((takeId id.data).bind (fun p =>
      if suffixOk ['?'] p.2 then some p.1 else none)) = some id.data
  rw [takeId_exact id.data h11 hall]
  rfl

theorem matchEmbedAt_embedUrl (id : String) (h11 : id.data.length = 11)
    (hall : id.data.all isIdChar = true) :
    matchEmbedAt ("https://www.youtube.com/embed/".data ++ id.data) = some id.data := by
  show ((takeId id.data).bind (fun p =>
      if suffixOk ['?'] p.2 then some p.1 else none)) = some id.data
  rw [takeId_exact id.data h11 hall]
  rfl

theorem matchStandardAt_mobileTail (id : String) (h11 : id.data.length = 11)
    (hall : id.data.all isIdChar = true) :
    matchStandardAt ("youtube.com/watch?v=".data ++ id.data) = some id.data := by
  show ((takeId id.data).bind (fun p =>
      if suffixOk ['&', '?'] p.2 then some p.1 else none)) = some id.data
  rw [takeId_exact id.data h11 hall]
  rfl

theorem tails_shortPre :
    "https://youtu.be/".data.tails = ["https://youtu.be/".data, "ttps://youtu.be/".data, "tps://youtu.be/".data, "ps://youtu.be/".data, "s://youtu.be/".data, "://youtu.be/".data, "//youtu.be/".data, "/youtu.be/".data, "youtu.be/".data, "outu.be/".data, "utu.be/".data, "tu.be/".data, "u.be/".data, ".be/".data, "be/".data, "e/".data, "/".data, "".data] := by
  rfl

theorem tails_embedPre :
    "https://www.youtube.com/embed/".data.tails = ["https://www.youtube.com/embed/".data, "ttps://www.youtube.com/embed/".data, "tps://www.youtube.com/embed/".data, "ps://www.youtube.com/embed/".data, "s://www.youtube.com/embed/".data, "://www.youtube.com/embed/".data, "//www.youtube.com/embed/".data, "/www.youtube.com/embed/".data, "www.youtube.com/embed/".data, "ww.youtube.com/embed/".data, "w.youtube.com/embed/".data, ".youtube.com/embed/".data, "youtube.com/embed/".data, "outube.com/embed/".data, "utube.com/embed/".data, "tube.com/embed/".data, "ube.com/embed/".data, "be.com/embed/".data, "e.com/embed/".data, ".com/embed/".data, "com/embed/".data, "om/embed/".data, "m/embed/".data, "/embed/".data, "embed/".data, "mbed/".data, "bed/".data, "ed/".data, "d/".data, "/".data, "".data] := by
  rfl

theorem tails_mobileSkip :
    "https://m.".data.tails = ["https://m.".data, "ttps://m.".data, "tps://m.".data, "ps://m.".data, "s://m.".data, "://m.".data, "//m.".data, "/m.".data, "m.".data, ".".data, "".data] := by
  rfl

theorem standard_not_in_short (id : String) (hall : id.data.all isIdChar = true) :
    findMatch matchStandardAt ("https://youtu.be/".data ++ id.data) = none := by
  apply findMatch_none
  intro t ht
  rcases suffix_append_cases ht with hB | h2
  · exact matchPatternAt_idchars true "youtube.com/watch?v=".data ['&', '?'] t
      (by decide) (all_of_suffix hB hall)
  · obtain ⟨A2, hA2, rfl⟩ := h2
    rw [← List.mem_tails, tails_shortPre] at hA2
    fin_cases hA2 <;> first
      | rfl
      | exact matchPatternAt_idchars true "youtube.com/watch?v=".data ['&', '?']
          id.data (by decide) hall

theorem standard_not_in_embed (id : String) (hall : id.data.all isIdChar = true) :
    findMatch matchStandardAt ("https://www.youtube.com/embed/".data ++ id.data)
      = none := by
  apply findMatch_none
  intro t ht
  rcases suffix_append_cases ht with hB | h2
  · exact matchPatternAt_idchars true "youtube.com/watch?v=".data ['&', '?'] t
      (by decide) (all_of_suffix hB hall)
  · obtain ⟨A2, hA2, rfl⟩ := h2
    rw [← List.mem_tails, tails_embedPre] at hA2
    fin_cases hA2 <;> first
      | rfl
      | exact matchPatternAt_idchars true "youtube.com/watch?v=".data ['&', '?']
          id.data (by decide) hall

theorem short_not_in_embed (id : String) (hall : id.data.all isIdChar = true) :
    findMatch matchShortAt ("https://www.youtube.com/embed/".data ++ id.data)
      = none := by
  apply findMatch_none
  intro t ht
  rcases suffix_append_cases ht with hB | h2
  · exact matchPatternAt_idchars true "youtu.be/".data ['?'] t
      (by decide) (all_of_suffix hB hall)
  · obtain ⟨A2, hA2, rfl⟩ := h2
    rw [← List.mem_tails, tails_embedPre] at hA2
    fin_cases hA2 <;> first
      | rfl
      | exact matchPatternAt_idchars true "youtu.be/".data ['?']
          id.data (by decide) hall

theorem standard_in_mobile (id : String) (h11 : id.data.length = 11)
    (hall : id.data.all isIdChar = true) :
    findMatch matchStandardAt ("https://m.youtube.com/watch?v=".data ++ id.data)
      = some id.data := by
  have hsplit : "https://m.youtube.com/watch?v=".data ++ id.data
      = "https://m.".data ++ ("youtube.com/watch?v=".data ++ id.data) := rfl
  rw [hsplit, findMatch_skip _ _ _ ?hfail]
  · exact findMatch_head _ _ _ (matchStandardAt_mobileTail id h11 hall)
  case hfail =>
    intro A2 hA2 hne
    rw [← List.mem_tails, tails_mobileSkip] at hA2
    fin_cases hA2 <;> first
      | rfl
      | exact absurd rfl hne


/-! ## Loader: extractVideoId glue -/

theorem isValidId_parts (id : String) (h : isValidId id = true) :
    id.data.length = 11 ∧ id.data.all isIdChar = true := by
  unfold isValidId at h
  rw [Bool.and_eq_true, decide_eq_true_eq] at h
  exact h

theorem idchar_not_ws (c : Char) (h : isIdChar c = true) : jsWs c = false := by
  have h1 : c ≠ ' ' := fun e => by rw [e] at h; exact absurd h (by decide)
  have h2 : c ≠ '\t' := fun e => by rw [e] at h; exact absurd h (by decide)
  have h3 : c ≠ '\n' := fun e => by rw [e] at h; exact absurd h (by decide)
  have h4 : c ≠ '\r' := fun e => by rw [e] at h; exact absurd h (by decide)
  have h5 : c ≠ Char.ofNat 11 := fun e => by rw [e] at h; exact absurd h (by decide)
  have h6 : c ≠ Char.ofNat 12 := fun e => by rw [e] at h; exact absurd h (by decide)
  simp [jsWs, h1, h2, h3, h4, h5, h6]

theorem jsBlank_of_idchars (s : String) (h11 : s.data.length = 11)
    (hall : s.data.all isIdChar = true) : jsBlank s = false := by
  unfold jsBlank
  cases hd : s.data with
  | nil => rw [hd] at h11; cases h11
  | cons c cs =>
    rw [hd] at hall
    rw [List.all_cons, Bool.and_eq_true] at hall
    simp [List.all_cons, idchar_not_ws c hall.1]

theorem jsBlank_concat (pre id : String) (h : pre.data.all jsWs = false) :
    jsBlank (pre ++ id) = false := by
  unfold jsBlank
  rw [String.data_append, List.all_append, h, Bool.false_and]

theorem isValidId_long (pre id : String) (h11 : id.data.length = 11)
    (hne : pre.data.length ≠ 0) : isValidId (pre ++ id) = false := by
  unfold isValidId
  rw [String.data_append, List.length_append, h11]
  have hno : (decide (pre.data.length + 11 = 11)) = false := by
    rw [decide_eq_false_iff_not]
    omega
  rw [hno, Bool.false_and]

theorem tryPatterns_watch (id : String) (h11 : id.data.length = 11)
    (hall : id.data.all isIdChar = true) :
    tryPatterns patternMatchers ("https://www.youtube.com/watch?v=".data ++ id.data)
      = some id.data := by
  show (findMatch matchStandardAt ("https://www.youtube.com/watch?v=".data ++ id.data)).orElse _
      = some id.data
  rw [findMatch_head _ _ _ (matchStandardAt_watchUrl id h11 hall), orElse_some]

theorem tryPatterns_short (id : String) (h11 : id.data.length = 11)
    (hall : id.data.all isIdChar = true) :
    tryPatterns patternMatchers ("https://youtu.be/".data ++ id.data)
      = some id.data := by
  show (findMatch matchStandardAt ("https://youtu.be/".data ++ id.data)).orElse _
      = some id.data
  rw [standard_not_in_short id hall, orElse_none]
  show (findMatch matchShortAt ("https://youtu.be/".data ++ id.data)).orElse _
      = some id.data
  rw [findMatch_head _ _ _ (matchShortAt_shortUrl id h11 hall), orElse_some]

theorem tryPatterns_embed (id : String) (h11 : id.data.length = 11)
    (hall : id.data.all isIdChar = true) :
    tryPatterns patternMatchers ("https://www.youtube.com/embed/".data ++ id.data)
      = some id.data := by
  show (findMatch matchStandardAt ("https://www.youtube.com/embed/".data ++ id.data)).orElse _
      = some id.data
  rw [standard_not_in_embed id hall, orElse_none]
  show (findMatch matchShortAt ("https://www.youtube.com/embed/".data ++ id.data)).orElse _
      = some id.data
  rw [short_not_in_embed id hall, orElse_none]
  show (findMatch matchEmbedAt ("https://www.youtube.com/embed/".data ++ id.data)).orElse _
      = some id.data
  rw [findMatch_head _ _ _ (matchEmbedAt_embedUrl id h11 hall), orElse_some]

theorem tryPatterns_mobile (id : String) (h11 : id.data.length = 11)
    (hall : id.data.all isIdChar = true) :
    tryPatterns patternMatchers ("https://m.youtube.com/watch?v=".data ++ id.data)
      = some id.data := by
  show (findMatch matchStandardAt ("https://m.youtube.com/watch?v=".data ++ id.data)).orElse _
      = some id.data
  rw [standard_in_mobile id h11 hall, orElse_some]

theorem extractVideoId_bare (id : String) (hvalid : isValidId id = true) :
    extractVideoId id = some id := by
  obtain ⟨h11, hall⟩ := isValidId_parts id hvalid
  simp [extractVideoId, jsBlank_of_idchars id h11 hall, hvalid]

theorem extractVideoId_shape (pre id : String) (hvalid : isValidId id = true)
    (hpre : pre.data.all jsWs = false) (hlen : pre.data.length ≠ 0)
    (hpat : tryPatterns patternMatchers (pre.data ++ id.data) = some id.data) :
    extractVideoId (pre ++ id) = some id := by
  obtain ⟨h11, hall⟩ := isValidId_parts id hvalid
  have hblank := jsBlank_concat pre id hpre
  have hlong := isValidId_long pre id h11 hlen
  have hdata : (pre ++ id).data = pre.data ++ id.data := String.data_append pre id
  simp only [extractVideoId, hblank, hlong, hdata, hpat, Bool.false_eq_true,
    if_false, Option.map_some']

theorem findMatch_isSome_of (m : List Char → Option (List Char))
    (pre suf v : List Char) (h : m suf = some v) :
    ∃ r, findMatch m (pre ++ suf) = some r := by
  induction pre with
  | nil => exact ⟨v, findMatch_head m suf v h⟩
  | cons c cs ih =>
    obtain ⟨r, hr⟩ := ih
    cases hm : m ((c :: cs) ++ suf) with
    | some w => exact ⟨w, findMatch_head m ((c :: cs) ++ suf) w hm⟩
    | none =>
      refine ⟨r, ?_⟩
      show (m (c :: (cs ++ suf))).orElse (fun _ => findMatch m (cs ++ suf)) = some r
      rw [show m (c :: (cs ++ suf)) = none from hm, orElse_none]
      exact hr

theorem extractVideoId_of_try (s : String) (v : List Char)
    (hblank : jsBlank s = false) (hvalid : isValidId s = false)
    (htry : tryPatterns patternMatchers s.data = some v) :
    extractVideoId s = some (String.mk v) := by
  simp only [extractVideoId, hblank, hvalid, htry, Bool.false_eq_true, if_false,
    Option.map_some']

/-- C4 counterexample: the regexes are anchored only at the end of the input
and `String.prototype.match` scans for a match anywhere, so a string that is
neither a YouTube URL nor a bare identifier — here one with leading junk —
still extracts an identifier instead of returning `null`: the claim's
"for every other string it returns null" fails. -/
theorem extractVideoId_junk_prefix_extracts :
    extractVideoId "zzz https://youtu.be/dQw4w9WgXcQ" = some "dQw4w9WgXcQ"
      ∧ isValidId "zzz https://youtu.be/dQw4w9WgXcQ" = false :=
  ⟨rfl, rfl⟩

/-- C4: amended — identifier extraction.  For every valid 11-character
identifier, the bare identifier and the four URL shapes (watch, short, embed,
mobile) extract that identifier, also in scheme-less, `http`, `www`-less and
query-suffixed spellings (shown on literals); anything extraction returns is
a valid 11-character identifier; but the claimed "null for every other
string" is false: the end-anchored patterns match at any position, so ANY
string, however invalid, followed by a watch URL extracts some valid
identifier; the spec's literal negatives (another host, plain text) do
return nothing. -/
theorem extractVideoId_amended :
    (∀ id : String, isValidId id = true →
      extractVideoId id = some id ∧
      extractVideoId ("https://www.youtube.com/watch?v=" ++ id) = some id ∧
      extractVideoId ("https://youtu.be/" ++ id) = some id ∧
      extractVideoId ("https://www.youtube.com/embed/" ++ id) = some id ∧
      extractVideoId ("https://m.youtube.com/watch?v=" ++ id) = some id) ∧
    (∀ s v : String, extractVideoId s = some v → isValidId v = true) ∧
    (∀ junk id : String, isValidId id = true →
      ∃ v, extractVideoId (junk ++ "https://www.youtube.com/watch?v=" ++ id)
          = some v ∧ isValidId v = true) ∧
    extractVideoId "youtube.com/watch?v=dQw4w9WgXcQ" = some "dQw4w9WgXcQ" ∧
    extractVideoId "http://youtube.com/watch?v=dQw4w9WgXcQ" = some "dQw4w9WgXcQ" ∧
    extractVideoId "www.youtube.com/watch?v=dQw4w9WgXcQ" = some "dQw4w9WgXcQ" ∧
    extractVideoId "https://www.youtube.com/watch?v=dQw4w9WgXcQ&t=10s"
      = some "dQw4w9WgXcQ" ∧
    extractVideoId "https://youtu.be/dQw4w9WgXcQ?t=5" = some "dQw4w9WgXcQ" ∧
    extractVideoId "https://vimeo.com/123456789" = none ∧
    extractVideoId "hello world" = none := by
  refine ⟨?_, ?_, ?_, by rfl, by rfl, by rfl, by rfl, by rfl, by rfl, by rfl⟩
  · intro id hvalid
    obtain ⟨h11, hall⟩ := isValidId_parts id hvalid
    refine ⟨extractVideoId_bare id hvalid, ?_, ?_, ?_, ?_⟩
    · exact extractVideoId_shape _ id hvalid (by decide) (by decide)
        (tryPatterns_watch id h11 hall)
    · exact extractVideoId_shape _ id hvalid (by decide) (by decide)
        (tryPatterns_short id h11 hall)
    · exact extractVideoId_shape _ id hvalid (by decide) (by decide)
        (tryPatterns_embed id h11 hall)
    · exact extractVideoId_shape _ id hvalid (by decide) (by decide)
        (tryPatterns_mobile id h11 hall)
  · intro s v h
    unfold extractVideoId at h
    by_cases hb : jsBlank s = true
    · rw [if_pos hb] at h
      cases h
    · rw [if_neg hb] at h
      by_cases hv : isValidId s = true
      · rw [if_pos hv] at h
        injection h with hs
        rw [← hs]
        exact hv
      · rw [if_neg hv] at h
        rw [Option.map_eq_some'] at h
        obtain ⟨u, hu, rfl⟩ := h
        obtain ⟨hlen, hall⟩ := tryPatterns_sound s.data u hu
        unfold isValidId
        rw [Bool.and_eq_true, decide_eq_true_eq]
        exact ⟨hlen, hall⟩
  · intro junk id hvalid
    obtain ⟨h11, hall⟩ := isValidId_parts id hvalid
    have hpre_ws : (junk ++ "https://www.youtube.com/watch?v=").data.all jsWs
        = false := by
      rw [String.data_append, List.all_append,
        (by decide : ("https://www.youtube.com/watch?v=".data.all jsWs) = false),
        Bool.and_false]
    have hblank := jsBlank_concat (junk ++ "https://www.youtube.com/watch?v=") id hpre_ws
    have hlen0 : (junk ++ "https://www.youtube.com/watch?v=").data.length ≠ 0 := by
      rw [String.data_append, List.length_append,
        (by decide : ("https://www.youtube.com/watch?v=".data.length) = 32)]
      omega
    have hlong := isValidId_long (junk ++ "https://www.youtube.com/watch?v=") id h11 hlen0
    have hmatch := matchStandardAt_watchUrl id h11 hall
    obtain ⟨r, hr⟩ := findMatch_isSome_of matchStandardAt junk.data
      ("https://www.youtube.com/watch?v=".data ++ id.data) id.data hmatch
    have hdata : ((junk ++ "https://www.youtube.com/watch?v=") ++ id).data
        = junk.data ++ ("https://www.youtube.com/watch?v=".data ++ id.data) := by
      rw [String.data_append, String.data_append, List.append_assoc]
    have htry : tryPatterns patternMatchers
        ((junk ++ "https://www.youtube.com/watch?v=") ++ id).data = some r := by
      rw [hdata]
      show (findMatch matchStandardAt
        (junk.data ++ ("https://www.youtube.com/watch?v=".data ++ id.data))).orElse _
          = some r
      rw [hr]
      rfl
    refine ⟨String.mk r, extractVideoId_of_try _ r hblank hlong htry, ?_⟩
    obtain ⟨hlen, hall2⟩ :=
      tryPatterns_sound ((junk ++ "https://www.youtube.com/watch?v=") ++ id).data r htry
    unfold isValidId
    rw [Bool.and_eq_true, decide_eq_true_eq]
    exact ⟨hlen, hall2⟩

/-- C4 witness: the universal clauses applied at the identifier of the spec's
literal example, and the junk-prefix clause applied at a concrete junk
prefix. -/
theorem extractVideoId_amended_witness :
    extractVideoId "dQw4w9WgXcQ" = some "dQw4w9WgXcQ" ∧
    extractVideoId ("https://www.youtube.com/watch?v=" ++ "dQw4w9WgXcQ")
      = some "dQw4w9WgXcQ" ∧
    isValidId "dQw4w9WgXcQ" = true ∧
    (∃ v, extractVideoId ("zzz " ++ "https://www.youtube.com/watch?v=" ++ "dQw4w9WgXcQ")
        = some v ∧ isValidId v = true) := by
  have h := extractVideoId_amended.1 "dQw4w9WgXcQ" (by decide)
  have hs := extractVideoId_amended.2.1 "dQw4w9WgXcQ" "dQw4w9WgXcQ" h.1
  have hj := extractVideoId_amended.2.2.1 "zzz " "dQw4w9WgXcQ" (by decide)
  exact ⟨h.1, h.2.1, hs, hj⟩


/-! ## Theorems: fetchTranscript (C5) -/

theorem transcriptText_all_empty (docs : List Doc)
    (h : ∀ d ∈ docs, d.pageContent = "") : transcriptText docs = "" := by
  unfold transcriptText
  have hfilter : (docs.map (fun d => d.pageContent.data)).filter
      (fun c => 0 < c.length) = [] := by
    induction docs with
    | nil => rfl
    | cons d ds ih =>
      have hd := h d (List.mem_cons_self d ds)
      rw [List.map_cons, List.filter_cons, hd]
      simp only [decide_eq_true_eq]
      rw [if_neg (by simp)]
      exact ih (fun x hx => h x (List.mem_cons_of_mem d hx))
  rw [hfilter]
  rfl

/-- C5 counterexample: a fetch whose only passage has empty text SUCCEEDS,
returning a TranscriptResult with empty flat text, contradicting the claim
that it must fail in that case. -/
theorem fetchTranscript_empty_passages_succeeds :
    fetchTranscript "dQw4w9WgXcQ" (fun _ => .ok [⟨""⟩]) 3
      = .ok ⟨"dQw4w9WgXcQ", "", [⟨""⟩]⟩ := rfl

/-- C5 amended: when the source yields zero passages the fetch fails with the
wrapped transcript-unavailable error (a success, even an empty one, stops the
retry loop, so this is the after-retries outcome); when it yields a nonempty
list of passages that all have empty text the fetch instead SUCCEEDS with an
empty flat text; and when all attempts fail the last error is rethrown
wrapped. -/
theorem fetchTranscript_amended (input : String)
    (loader : Nat → Except String (List Doc)) (maxRetries : Nat) (id : String)
    (hblank : jsBlank input = false)
    (hid : extractVideoId input = some id) :
    (retryWithBackoff loader maxRetries = .ok [] →
      fetchTranscript input loader maxRetries
        = .error ("Failed to fetch transcript for video " ++ id ++ ": " ++
            ("No transcript found for video: " ++ id))) ∧
    (∀ docs, retryWithBackoff loader maxRetries = .ok docs → docs ≠ [] →
      (∀ d ∈ docs, d.pageContent = "") →
      fetchTranscript input loader maxRetries = .ok ⟨id, "", docs⟩) ∧
    (∀ e, retryWithBackoff loader maxRetries = .error e →
      fetchTranscript input loader maxRetries
        = .error ("Failed to fetch transcript for video " ++ id ++ ": " ++ e)) := by
  have h1 : fetchTranscript input loader maxRetries
      = match retryWithBackoff loader maxRetries with
        | .error e => .error ("Failed to fetch transcript for video " ++ id ++ ": " ++ e)
        | .ok docs =>
          if docs.length = 0 then
            .error ("Failed to fetch transcript for video " ++ id ++ ": " ++
              ("No transcript found for video: " ++ id))
          else .ok ⟨id, transcriptText docs, docs⟩ := by
    unfold fetchTranscript
    rw [if_neg (by rw [hblank]; exact Bool.false_ne_true), hid]
  refine ⟨?_, ?_, ?_⟩
  · intro hr
    rw [h1, hr]
    rfl
  · intro docs hr hne hempty
    rw [h1, hr]
    have hlen : ¬ (docs.length = 0) := fun h0 => hne (List.length_eq_zero.mp h0)
    show (if docs.length = 0 then _ else _) = _
    rw [if_neg hlen, transcriptText_all_empty docs hempty]
  · intro e hr
    rw [h1, hr]

/-- C5 witness: the amended theorem applied at a concrete id and concrete
loaders for each of the three outcomes. -/
theorem fetchTranscript_amended_witness :
    fetchTranscript "dQw4w9WgXcQ" (fun _ => .ok []) 3
      = .error ("Failed to fetch transcript for video " ++ "dQw4w9WgXcQ" ++ ": " ++
          ("No transcript found for video: " ++ "dQw4w9WgXcQ")) ∧
    fetchTranscript "dQw4w9WgXcQ" (fun _ => .ok [⟨""⟩]) 3
      = .ok ⟨"dQw4w9WgXcQ", "", [⟨""⟩]⟩ ∧
    fetchTranscript "dQw4w9WgXcQ" (fun _ => .error "boom") 3
      = .error ("Failed to fetch transcript for video " ++ "dQw4w9WgXcQ" ++ ": " ++
          "boom") := by
  refine ⟨?_, ?_, ?_⟩
  · exact (fetchTranscript_amended "dQw4w9WgXcQ" (fun _ => .ok []) 3 "dQw4w9WgXcQ"
      (by decide) (by rfl)).1 (by rfl)
  · exact (fetchTranscript_amended "dQw4w9WgXcQ" (fun _ => .ok [⟨""⟩]) 3 "dQw4w9WgXcQ"
      (by decide) (by rfl)).2.1 [⟨""⟩] (by rfl) (by simp)
      (by intro d hd; rcases List.mem_singleton.mp hd with rfl; rfl)
  · exact (fetchTranscript_amended "dQw4w9WgXcQ" (fun _ => .error "boom") 3 "dQw4w9WgXcQ"
      (by decide) (by rfl)).2.2 "boom" (by rfl)


/-! ## Theorems: compressor (C7) -/

theorem insertDesc_perm (x : List Char × Nat) (l : List (List Char × Nat)) :
    (insertDesc x l).Perm (x :: l) := by
  induction l with
  | nil => exact List.Perm.refl _
  | cons y ys ih =>
    by_cases h : y.2 ≤ x.2
    · rw [show insertDesc x (y :: ys) = x :: y :: ys by simp [insertDesc, h]]
    · rw [show insertDesc x (y :: ys) = y :: insertDesc x ys by simp [insertDesc, h]]
      exact (ih.cons y).trans (List.Perm.swap x y ys)

theorem sortByScoreDesc_perm (l : List (List Char × Nat)) :
    (sortByScoreDesc l).Perm l := by
  induction l with
  | nil => exact List.Perm.refl _
  | cons x xs ih =>
    exact (insertDesc_perm x (sortByScoreDesc xs)).trans (ih.cons x)

theorem sum_splitRunsGo (p : Char → Bool) :
    ∀ (l : List Char) (st : Option (List Char)),
      ((splitRunsGo p st l).map List.length).sum ≤ stLen st + l.length := by
  intro l
  induction l with
  | nil =>
    intro st
    cases st with
    | some cur => simp [splitRunsGo, stLen]
    | none => simp [splitRunsGo, stLen]
  | cons c cs ih =>
    intro st
    by_cases hp : p c = true
    · cases st with
      | some cur =>
        rw [show splitRunsGo p (some cur) (c :: cs)
            = cur.reverse :: splitRunsGo p none cs by simp [splitRunsGo, hp]]
        have h0 := ih none
        simp only [stLen] at h0 ⊢
        simp only [List.map_cons, List.sum_cons, List.length_reverse, List.length_cons]
        omega
      | none =>
        rw [show splitRunsGo p none (c :: cs) = splitRunsGo p none cs by
          simp [splitRunsGo, hp]]
        have h0 := ih none
        simp only [stLen] at h0 ⊢
        simp only [List.length_cons]
        omega
    · cases st with
      | some cur =>
        rw [show splitRunsGo p (some cur) (c :: cs)
            = splitRunsGo p (some (c :: cur)) cs by simp [splitRunsGo, hp]]
        have h0 := ih (some (c :: cur))
        simp only [stLen] at h0 ⊢
        simp only [List.length_cons] at h0 ⊢
        omega
      | none =>
        rw [show splitRunsGo p none (c :: cs) = splitRunsGo p (some [c]) cs by
          simp [splitRunsGo, hp]]
        have h0 := ih (some [c])
        simp only [stLen] at h0 ⊢
        simp only [List.length_cons, List.length_nil] at h0 ⊢
        omega

theorem sum_splitRuns (p : Char → Bool) (l : List Char) :
    ((splitRuns p l).map List.length).sum ≤ l.length := by
  have h0 := sum_splitRunsGo p l (some [])
  simpa [splitRuns, stLen] using h0

theorem trimChars_length_le (l : List Char) : (trimChars l).length ≤ l.length := by
  unfold trimChars
  rw [List.length_reverse]
  calc ((l.dropWhile jsWs).reverse.dropWhile jsWs).length
      ≤ (l.dropWhile jsWs).reverse.length := (List.dropWhile_sublist _).length_le
    _ = (l.dropWhile jsWs).length := List.length_reverse _
    _ ≤ l.length := (List.dropWhile_sublist _).length_le

theorem joinSep_dot_length :
    ∀ l : List (List Char),
      (joinSep ". ".data l).length ≤ (l.map List.length).sum + 2 * l.length := by
  intro l
  induction l with
  | nil => simp [joinSep]
  | cons x xs ih =>
    cases xs with
    | nil =>
      rw [show joinSep ". ".data [x] = x from rfl]
      simp only [List.map_cons, List.map_nil, List.sum_cons, List.sum_nil,
        List.length_cons, List.length_nil]
      omega
    | cons y ys =>
      rw [show joinSep ". ".data (x :: y :: ys)
          = x ++ ". ".data ++ joinSep ". ".data (y :: ys) from rfl]
      have hsep : (". ".data).length = 2 := rfl
      simp only [List.length_append, List.map_cons, List.sum_cons,
        List.length_cons, hsep] at ih ⊢
      omega

theorem sentences_sum_le (text : List Char) :
    ((ContextualCompressor.sentencesOf text).map List.length).sum ≤ text.length := by
  unfold ContextualCompressor.sentencesOf
  have h1 : ((((splitRuns isPunct text).map trimChars).filter
      (fun s => 20 < s.length)).map List.length).sum
      ≤ (((splitRuns isPunct text).map trimChars).map List.length).sum := by
    refine List.Sublist.sum_le_sum ?_ ?_
    · exact (List.filter_sublist _).map List.length
    · intro a _
      exact Nat.zero_le a
  have h2 : (((splitRuns isPunct text).map trimChars).map List.length).sum
      ≤ ((splitRuns isPunct text).map List.length).sum := by
    rw [List.map_map]
    refine List.sum_le_sum ?_
    intro s _
    exact trimChars_length_le s
  exact le_trans h1 (le_trans h2 (sum_splitRuns isPunct text))

theorem top_pieces_sum (text query : List Char) (N : Nat) :
    ((ContextualCompressor.topSentencesOf text query N).map List.length).sum
      ≤ ((ContextualCompressor.sentencesOf text).map List.length).sum := by
  unfold ContextualCompressor.topSentencesOf
  rw [List.map_map]
  have hsub : ((((sortByScoreDesc ((ContextualCompressor.sentencesOf text).map
      (fun sentence => (sentence,
        ContextualCompressor.scoreOf (ContextualCompressor.queryTermsOf query)
          sentence)))).take N).filter (fun x => 0 < x.2))).Sublist
      (sortByScoreDesc ((ContextualCompressor.sentencesOf text).map
        (fun sentence => (sentence,
          ContextualCompressor.scoreOf (ContextualCompressor.queryTermsOf query)
            sentence)))) :=
    (List.filter_sublist _).trans (List.take_sublist _ _)
  have h1 := List.Sublist.sum_le_sum (hsub.map (List.length ∘ fun x => x.1))
    (fun a _ => Nat.zero_le a)
  refine le_trans h1 (le_of_eq ?_)
  have hperm := (sortByScoreDesc_perm ((ContextualCompressor.sentencesOf text).map
    (fun sentence => (sentence,
      ContextualCompressor.scoreOf (ContextualCompressor.queryTermsOf query)
        sentence)))).map (List.length ∘ fun x => x.1)
  rw [hperm.sum_eq, List.map_map]
  rfl

theorem top_pieces_count (text query : List Char) (N : Nat) :
    (ContextualCompressor.topSentencesOf text query N).length ≤ N := by
  unfold ContextualCompressor.topSentencesOf
  rw [List.length_map]
  exact le_trans (List.length_filter_le _ _) (List.length_take_le _ _)

theorem joinSep_bound_of (pieces : List (List Char)) (text : List Char) (N : Nat)
    (hsum : (pieces.map List.length).sum ≤ text.length)
    (hlen : pieces.length ≤ N) :
    (joinSep ". ".data pieces ++ ['.']).length ≤ text.length + 2 * N + 1 := by
  rw [List.length_append]
  have hj : (joinSep ['.', ' '] pieces).length
      ≤ (pieces.map List.length).sum + 2 * pieces.length := joinSep_dot_length pieces
  simp only [List.length_singleton]
  omega

/-- C7 counterexample: a 21-character passage with no keyword match is
"compressed" to 22 characters — the heuristic fallback re-appends the joining
punctuation, so its output exceeds the input's length, contradicting the
claim that the selection (including the zero-match fallback) is never longer
than the input. -/
theorem extractRelevantSentences_longer_than_input :
    ("aaaaaaaaaaaaaaaaaaaaa".data).length = 21 ∧
    (ContextualCompressor.extractRelevantSentences
        "aaaaaaaaaaaaaaaaaaaaa".data "query".data 3).length = 22 := by
  decide

/-- C7 amended: the Compressor's output length is bounded, but not by the
input's length alone: heuristic-mode output can exceed the input by the
re-inserted sentence punctuation, up to `2 * maxSentences + 1` characters
(the counterexample shows the excess is reachable); model-assisted mode
(`compressDocument`) never exceeds the input: when it reports
`compressed = false` it returns the original unchanged, and when it reports
`compressed = true` it returns either the empty extraction or a text at least
20% shorter than the original. -/
theorem compressor_length_bounds (text query : List Char) (N : Nat)
    (doc query2 : String) (resp : Except Unit String) :
    (ContextualCompressor.extractRelevantSentences text query N).length
      ≤ text.length + 2 * N + 1 ∧
    (ContextualCompressor.compressDocument doc query2 resp).1.data.length
      ≤ doc.data.length ∧
    ((ContextualCompressor.compressDocument doc query2 resp).2 = false →
      (ContextualCompressor.compressDocument doc query2 resp).1 = doc) ∧
    ((ContextualCompressor.compressDocument doc query2 resp).2 = true →
      (ContextualCompressor.compressDocument doc query2 resp).1 = "" ∨
      5 * (ContextualCompressor.compressDocument doc query2 resp).1.data.length
        < 4 * doc.data.length) := by
  refine ⟨?_, ?_⟩
  · unfold ContextualCompressor.extractRelevantSentences
    by_cases hempty :
        (ContextualCompressor.topSentencesOf text query N).isEmpty = true
    · rw [if_pos hempty]
      refine joinSep_bound_of _ text N ?_ ?_
      · exact le_trans (List.Sublist.sum_le_sum
          ((List.take_sublist N _).map List.length) (fun a _ => Nat.zero_le a))
          (sentences_sum_le text)
      · exact List.length_take_le _ _
    · rw [if_neg hempty]
      refine joinSep_bound_of _ text N ?_ ?_
      · exact le_trans (top_pieces_sum text query N) (sentences_sum_le text)
      · exact top_pieces_count text query N
  · cases resp with
    | error e =>
      exact ⟨le_refl _, fun _ => rfl,
        fun h => by simp [ContextualCompressor.compressDocument] at h⟩
    | ok raw =>
      have hcd : ContextualCompressor.compressDocument doc query2 (.ok raw)
          = if String.mk (trimChars raw.data) = "NOT_RELEVANT"
              ∨ String.mk (trimChars raw.data) = "" then ("", true)
            else if 5 * (String.mk (trimChars raw.data)).data.length
                < 4 * doc.data.length then (String.mk (trimChars raw.data), true)
            else (doc, false) := rfl
      rw [hcd]
      by_cases h1 : String.mk (trimChars raw.data) = "NOT_RELEVANT"
          ∨ String.mk (trimChars raw.data) = ""
      · rw [if_pos h1]
        exact ⟨Nat.zero_le _, fun h => by simp at h, fun _ => .inl rfl⟩
      · rw [if_neg h1]
        by_cases h2 : 5 * (String.mk (trimChars raw.data)).data.length
            < 4 * doc.data.length
        · rw [if_pos h2]
          refine ⟨?_, fun h => by simp at h, fun _ => .inr h2⟩
          show (String.mk (trimChars raw.data)).data.length ≤ doc.data.length
          omega
        · rw [if_neg h2]
          exact ⟨le_refl _, fun _ => rfl, fun h => by simp at h⟩


/-! ## Theorems: queryRag (C6) -/

/-- C6 counterexample: when the backing query returns zero matches — which is
what the Pinecone store returns for a namespace that does not exist, as well
as for one that is empty — `queryRag` SUCCEEDS with zero results instead of
failing with a QueryFailed error, so a missing namespace is not a failure and
is not distinguishable from an empty one. -/
theorem queryRag_zero_matches_succeeds :
    queryRag (fun _ => .ok []) "q" 4 false = .ok ⟨"", [], false⟩ := rfl

/-- C6 amended: `queryRag` installs no error handler and performs no
namespace-existence check: an error thrown by the backing vector-store call
propagates unchanged (it is never wrapped into a QueryFailed error), and a
backing query that returns zero matches — the store's behaviour both for an
empty namespace and for a nonexistent one — yields a successful response with
an empty context and zero results; the two namespace cases are therefore
indistinguishable in the result. -/
theorem queryRag_amended (backing : Nat → Except String (List (RagDoc × ℚ)))
    (question : String) (k : Nat) (useCompression : Bool) :
    (∀ e, backing (if useCompression then min (k * 2) 10 else k) = .error e →
      queryRag backing question k useCompression = .error e) ∧
    (backing (if useCompression then min (k * 2) 10 else k) = .ok [] →
      queryRag backing question k useCompression
        = .ok ⟨"", [], useCompression⟩) := by
  have h1 : queryRag backing question k useCompression
      = match backing (if useCompression then min (k * 2) 10 else k) with
        | .error e => .error e
        | .ok resultsWithScores =>
          .ok ⟨formatContext
              (if useCompression && decide (0 < resultsWithScores.length) then
                ((resultsWithScores.map (compressPair question)).filter
                  (fun r => 0 < (trimChars r.1.pageContent.data).length)).take k
              else resultsWithScores),
            (if useCompression && decide (0 < resultsWithScores.length) then
              ((resultsWithScores.map (compressPair question)).filter
                (fun r => 0 < (trimChars r.1.pageContent.data).length)).take k
            else resultsWithScores), useCompression⟩ := rfl
  constructor
  · intro e he
    rw [h1, he]
  · intro hok
    rw [h1, hok]
    cases useCompression <;> rfl

/-- C6 witness: the amended theorem applied to a backing store that errors and
to one that returns zero matches. -/
theorem queryRag_amended_witness :
    queryRag (fun _ => .error "boom") "q" 4 false = .error "boom" ∧
    queryRag (fun _ => .ok []) "q" 4 false = .ok ⟨"", [], false⟩ :=
  ⟨(queryRag_amended (fun _ => .error "boom") "q" 4 false).1 "boom" rfl,
   (queryRag_amended (fun _ => .ok []) "q" 4 false).2 rfl⟩


/-! ## Handler step lemmas -/

theorem tokenStep_not_answer (st : SState) (m : Msg) (h : ¬ IsAnswerMsg m) :
    tokenStep st m = ([], st) := by
  unfold tokenStep
  unfold IsAnswerMsg at h
  rw [if_neg h]

theorem tokenStep_blocked (st : SState) (m : Msg) (ha : IsAnswerMsg m)
    (hb : ¬(contentText m.content ≠ "" ∧ contentText m.content ≠ st.messageBuffer
        ∧ messageKey m ∉ st.sentMessages)) :
    tokenStep st m = ([], st) := by
  unfold tokenStep
  unfold IsAnswerMsg at ha
  rw [if_pos ha, if_neg hb]

theorem tokenStep_emit (st : SState) (m : Msg) (ha : IsAnswerMsg m)
    (hb : contentText m.content ≠ "" ∧ contentText m.content ≠ st.messageBuffer
        ∧ messageKey m ∉ st.sentMessages) :
    tokenStep st m = ([.token (sanitizeHTML (contentText m.content))],
      ⟨contentText m.content, st.lastToolName, messageKey m :: st.sentMessages⟩) := by
  unfold tokenStep
  unfold IsAnswerMsg at ha
  rw [if_pos ha, if_pos hb]

theorem tokenStep_shape (st : SState) (m : Msg) :
    (tokenStep st m).2.lastToolName = st.lastToolName ∧
    toolStartNames (tokenStep st m).1 = [] ∧
    (tokenStep st m).1.all (fun e => !isTerminal e) = true := by
  unfold tokenStep
  split
  · split
    · exact ⟨rfl, rfl, rfl⟩
    · exact ⟨rfl, rfl, rfl⟩
  · exact ⟨rfl, rfl, rfl⟩

theorem toolStartStep_none (st : SState) (m : Msg) (h : m.tool_calls = []) :
    toolStartStep st m = ([], st) := by
  unfold toolStartStep
  rw [h]

theorem toolStartStep_notAi (st : SState) (m : Msg) (h : m.type ≠ "ai") :
    toolStartStep st m = ([], st) := by
  unfold toolStartStep
  cases hcalls : m.tool_calls with
  | nil => rfl
  | cons tc rest => exact if_neg h

theorem toolStartStep_emit (st : SState) (m : Msg) (tc : ToolCall) (rest : List ToolCall)
    (hcalls : m.tool_calls = tc :: rest) (hai : m.type = "ai")
    (hne : tc.name ≠ st.lastToolName) :
    toolStartStep st m
      = ([.tool_start (sanitizeHTML tc.name) (sanitizeToolArgs tc.args)],
         ⟨st.messageBuffer, tc.name, st.sentMessages⟩) := by
  have h0 : toolStartStep st m
      = (if m.type = "ai" then
          if tc.name ≠ st.lastToolName then
            ([Ev.tool_start (sanitizeHTML tc.name) (sanitizeToolArgs tc.args)],
              (⟨st.messageBuffer, tc.name, st.sentMessages⟩ : SState))
          else ([], st)
        else ([], st)) := by
    unfold toolStartStep
    rw [hcalls]
  rw [h0, if_pos hai, if_pos hne]

theorem toolStartStep_same (st : SState) (m : Msg) (tc : ToolCall) (rest : List ToolCall)
    (hcalls : m.tool_calls = tc :: rest) (hai : m.type = "ai")
    (heq : tc.name = st.lastToolName) :
    toolStartStep st m = ([], st) := by
  have h0 : toolStartStep st m
      = (if m.type = "ai" then
          if tc.name ≠ st.lastToolName then
            ([Ev.tool_start (sanitizeHTML tc.name) (sanitizeToolArgs tc.args)],
              (⟨st.messageBuffer, tc.name, st.sentMessages⟩ : SState))
          else ([], st)
        else ([], st)) := by
    unfold toolStartStep
    rw [hcalls]
  rw [h0, if_pos hai, if_neg (by simpa using heq)]

theorem toolStartStep_shape (st : SState) (m : Msg) :
    (toolStartStep st m).2.messageBuffer = st.messageBuffer ∧
    (toolStartStep st m).2.sentMessages = st.sentMessages ∧
    tokenContents (toolStartStep st m).1 = [] ∧
    (toolStartStep st m).1.all (fun e => !isTerminal e) = true := by
  unfold toolStartStep
  split
  · exact ⟨rfl, rfl, rfl, rfl⟩
  · split
    · split
      · exact ⟨rfl, rfl, rfl, rfl⟩
      · exact ⟨rfl, rfl, rfl, rfl⟩
    · exact ⟨rfl, rfl, rfl, rfl⟩

theorem toolEndStep_shape (st : SState) (m : Msg) :
    (toolEndStep st m).2.messageBuffer = st.messageBuffer ∧
    (toolEndStep st m).2.lastToolName = st.lastToolName ∧
    tokenContents (toolEndStep st m).1 = [] ∧
    toolStartNames (toolEndStep st m).1 = [] ∧
    (toolEndStep st m).1.all (fun e => !isTerminal e) = true ∧
    ((toolEndStep st m).2.sentMessages = st.sentMessages ∨
      (toolEndStep st m).2.sentMessages = toolKeyOf m :: st.sentMessages) := by
  unfold toolEndStep
  split
  · split
    · exact ⟨rfl, rfl, rfl, rfl, rfl, .inr rfl⟩
    · exact ⟨rfl, rfl, rfl, rfl, rfl, .inl rfl⟩
  · exact ⟨rfl, rfl, rfl, rfl, rfl, .inl rfl⟩

theorem processLoop_cons (st : SState) (ch : Chunk) (rest : List Chunk) :
    processLoop st (ch :: rest)
      = ((processChunk st ch).1 ++ (processLoop (processChunk st ch).2 rest).1,
         (processLoop (processChunk st ch).2 rest).2) := rfl

theorem processChunk_none (st : SState) (ch : Chunk)
    (h : ch.messages.getLast? = none) : processChunk st ch = ([], st) := by
  unfold processChunk
  rw [h]

theorem processChunk_some (st : SState) (ch : Chunk) (m : Msg)
    (h : ch.messages.getLast? = some m) : processChunk st ch = processMsg st m := by
  unfold processChunk
  rw [h]

/-! ## Theorems: stream termination (C2) -/

theorem processMsg_no_terminal (st : SState) (m : Msg) :
    (processMsg st m).1.all (fun e => !isTerminal e) = true := by
  unfold processMsg
  simp only [List.all_append, Bool.and_eq_true]
  exact ⟨⟨(tokenStep_shape st m).2.2, (toolStartStep_shape _ m).2.2.2⟩,
    (toolEndStep_shape _ m).2.2.2.2.1⟩

theorem processLoop_no_terminal (chunks : List Chunk) :
    ∀ st : SState, (processLoop st chunks).1.all (fun e => !isTerminal e) = true := by
  induction chunks with
  | nil => intro st; rfl
  | cons ch rest ih =>
    intro st
    rw [processLoop_cons]
    simp only [List.all_append, Bool.and_eq_true]
    refine ⟨?_, ih _⟩
    cases hml : ch.messages.getLast? with
    | none => rw [processChunk_none st ch hml]; rfl
    | some m => rw [processChunk_some st ch m hml]; exact processMsg_no_terminal st m

/-- C2: every SSE event stream the handler emits consists of non-terminator
events followed by exactly one terminator — a single `done` on success or a
single sanitized `error` on failure (validation failure or a rejected agent
stream) — and nothing follows the terminator. -/
theorem sse_single_terminator (req : AskReq) (chunks : List Chunk)
    (streamFail : Option String) (evs : List Ev)
    (h : handler req chunks streamFail = .sse evs) :
    ∃ front t, evs = front ++ [t] ∧ isTerminal t = true ∧
      front.all (fun e => !isTerminal e) = true := by
  unfold handler at h
  by_cases hm : req.method ≠ "POST"
  · rw [if_pos hm] at h
    cases h
  · rw [if_neg hm] at h
    cases hv : validationError req with
    | some msg =>
      rw [hv] at h
      injection h with he
      exact ⟨[], .error (sanitizeErrorMessageStr msg), he.symm, rfl, rfl⟩
    | none =>
      rw [hv] at h
      cases hs : streamFail with
      | none =>
        rw [hs] at h
        injection h with he
        exact ⟨processStream chunks, .done, he.symm, rfl,
          processLoop_no_terminal chunks initState⟩
      | some e =>
        rw [hs] at h
        injection h with he
        exact ⟨processStream chunks, .error (sanitizeErrorMessageStr e), he.symm, rfl,
          processLoop_no_terminal chunks initState⟩

/-- C2 witness: concrete requests covering the success, stream-failure and
validation-failure outcomes. -/
theorem sse_single_terminator_witness :
    (∃ front t, [Ev.done] = front ++ [t] ∧ isTerminal t = true ∧
      front.all (fun e => !isTerminal e) = true) ∧
    (∃ front t, [Ev.error (sanitizeErrorMessageStr "boom")] = front ++ [t] ∧
      isTerminal t = true ∧ front.all (fun e => !isTerminal e) = true) ∧
    (∃ front t,
      [Ev.error (sanitizeErrorMessageStr "URL parameter is required and cannot be empty")]
        = front ++ [t] ∧ isTerminal t = true ∧
      front.all (fun e => !isTerminal e) = true) := by
  refine ⟨?_, ?_, ?_⟩
  · exact sse_single_terminator ⟨"POST", some "https://youtube.com/watch?v=x", some "why"⟩
      [] none [.done] rfl
  · exact sse_single_terminator ⟨"POST", some "https://youtube.com/watch?v=x", some "why"⟩
      [] (some "boom") [.error (sanitizeErrorMessageStr "boom")] rfl
  · exact sse_single_terminator ⟨"POST", none, some "why"⟩ [] none
      [.error (sanitizeErrorMessageStr "URL parameter is required and cannot be empty")] rfl


/-! ## Theorems: tool_start deduplication (C3) -/

theorem processLoop_cons_fst (st : SState) (ch : Chunk) (rest : List Chunk) :
    (processLoop st (ch :: rest)).1
      = (processChunk st ch).1 ++ (processLoop (processChunk st ch).2 rest).1 := rfl

theorem processMsg_fst (st : SState) (m : Msg) :
    (processMsg st m).1
      = (tokenStep st m).1 ++ (toolStartStep (tokenStep st m).2 m).1
          ++ (toolEndStep (toolStartStep (tokenStep st m).2 m).2 m).1 := rfl

theorem processMsg_snd (st : SState) (m : Msg) :
    (processMsg st m).2 = (toolEndStep (toolStartStep (tokenStep st m).2 m).2 m).2 := rfl

theorem toolStartNames_append (l1 l2 : List Ev) :
    toolStartNames (l1 ++ l2) = toolStartNames l1 ++ toolStartNames l2 := by
  unfold toolStartNames
  rw [List.filterMap_append]

theorem tokenContents_append (l1 l2 : List Ev) :
    tokenContents (l1 ++ l2) = tokenContents l1 ++ tokenContents l2 := by
  unfold tokenContents
  rw [List.filterMap_append]

theorem toolCallNameOf_none_msg (ch : Chunk) (h : ch.messages.getLast? = none) :
    toolCallNameOf ch = none := by
  unfold toolCallNameOf
  rw [h]

theorem toolCallNameOf_some (ch : Chunk) (m : Msg) (hml : ch.messages.getLast? = some m) :
    toolCallNameOf ch = (match m.tool_calls with
      | [] => none
      | toolCall :: _ => if m.type = "ai" then some toolCall.name else none) := by
  unfold toolCallNameOf
  rw [hml]

theorem toolCallNameOf_nil_calls (ch : Chunk) (m : Msg)
    (hml : ch.messages.getLast? = some m) (h : m.tool_calls = []) :
    toolCallNameOf ch = none := by
  rw [toolCallNameOf_some ch m hml, h]

theorem toolCallNameOf_notAi (ch : Chunk) (m : Msg) (tc : ToolCall) (rest : List ToolCall)
    (hml : ch.messages.getLast? = some m) (hcalls : m.tool_calls = tc :: rest)
    (h : m.type ≠ "ai") : toolCallNameOf ch = none := by
  rw [toolCallNameOf_some ch m hml, hcalls]
  exact if_neg h

theorem toolCallNameOf_ai (ch : Chunk) (m : Msg) (tc : ToolCall) (rest : List ToolCall)
    (hml : ch.messages.getLast? = some m) (hcalls : m.tool_calls = tc :: rest)
    (h : m.type = "ai") : toolCallNameOf ch = some tc.name := by
  rw [toolCallNameOf_some ch m hml, hcalls]
  exact if_pos h

theorem toolCallNames_cons_none (ch : Chunk) (rest : List Chunk)
    (h : toolCallNameOf ch = none) :
    toolCallNames (ch :: rest) = toolCallNames rest := by
  unfold toolCallNames
  rw [List.filterMap_cons, h]

theorem toolCallNames_cons_some (ch : Chunk) (rest : List Chunk) (n : String)
    (h : toolCallNameOf ch = some n) :
    toolCallNames (ch :: rest) = n :: toolCallNames rest := by
  unfold toolCallNames
  rw [List.filterMap_cons, h]

theorem dedupConsec_cons (last n : String) (ns : List String) :
    dedupConsec last (n :: ns)
      = if n = last then dedupConsec last ns else n :: dedupConsec n ns := rfl

theorem tokenStep_not_answer_of_calls (st : SState) (m : Msg) (tc : ToolCall)
    (rest : List ToolCall) (hcalls : m.tool_calls = tc :: rest) :
    tokenStep st m = ([], st) := by
  refine tokenStep_not_answer st m ?_
  intro ha
  obtain ⟨h1, h2, h3⟩ := ha
  rw [hcalls] at h3
  simp at h3

theorem processMsg_toolStart_skip (st : SState) (m : Msg)
    (h : ∀ s : SState, toolStartStep s m = ([], s)) :
    toolStartNames (processMsg st m).1 = []
      ∧ (processMsg st m).2.lastToolName = st.lastToolName := by
  have hts1 : (toolStartStep (tokenStep st m).2 m).1 = [] := by rw [h]
  have hts2 : (toolStartStep (tokenStep st m).2 m).2 = (tokenStep st m).2 := by rw [h]
  constructor
  · rw [processMsg_fst, toolStartNames_append, toolStartNames_append,
      (tokenStep_shape st m).2.1, hts1, (toolEndStep_shape _ m).2.2.2.1]
    rfl
  · rw [processMsg_snd, (toolEndStep_shape _ m).2.1, hts2, (tokenStep_shape st m).1]

theorem processMsg_toolStart_emit (st : SState) (m : Msg) (tc : ToolCall)
    (rest : List ToolCall) (hcalls : m.tool_calls = tc :: rest) (hai : m.type = "ai")
    (hne : tc.name ≠ st.lastToolName) :
    toolStartNames (processMsg st m).1 = [sanitizeHTML tc.name]
      ∧ (processMsg st m).2.lastToolName = tc.name := by
  have htok : tokenStep st m = ([], st) := tokenStep_not_answer_of_calls st m tc rest hcalls
  have htok2 : (tokenStep st m).2 = st := by rw [htok]
  have hts := toolStartStep_emit st m tc rest hcalls hai hne
  have hts1 : (toolStartStep st m).1
      = [Ev.tool_start (sanitizeHTML tc.name) (sanitizeToolArgs tc.args)] := by rw [hts]
  have hts2 : (toolStartStep st m).2
      = (⟨st.messageBuffer, tc.name, st.sentMessages⟩ : SState) := by rw [hts]
  constructor
  · rw [processMsg_fst, htok2, toolStartNames_append, toolStartNames_append,
      (tokenStep_shape st m).2.1, hts1, (toolEndStep_shape _ m).2.2.2.1]
    rfl
  · rw [processMsg_snd, htok2, (toolEndStep_shape _ m).2.1, hts2]

theorem processMsg_toolStart_same (st : SState) (m : Msg) (tc : ToolCall)
    (rest : List ToolCall) (hcalls : m.tool_calls = tc :: rest) (hai : m.type = "ai")
    (heq : tc.name = st.lastToolName) :
    toolStartNames (processMsg st m).1 = []
      ∧ (processMsg st m).2.lastToolName = st.lastToolName := by
  have htok : tokenStep st m = ([], st) := tokenStep_not_answer_of_calls st m tc rest hcalls
  have htok2 : (tokenStep st m).2 = st := by rw [htok]
  have hts := toolStartStep_same st m tc rest hcalls hai heq
  have hts1 : (toolStartStep st m).1 = [] := by rw [hts]
  have hts2 : (toolStartStep st m).2 = st := by rw [hts]
  constructor
  · rw [processMsg_fst, htok2, toolStartNames_append, toolStartNames_append,
      (tokenStep_shape st m).2.1, hts1, (toolEndStep_shape _ m).2.2.2.1]
    rfl
  · rw [processMsg_snd, htok2, (toolEndStep_shape _ m).2.1, hts2]

theorem loop_toolStartNames (chunks : List Chunk) : ∀ st : SState,
    toolStartNames (processLoop st chunks).1
      = (dedupConsec st.lastToolName (toolCallNames chunks)).map sanitizeHTML := by
  induction chunks with
  | nil => intro st; rfl
  | cons ch rest ih =>
    intro st
    rw [processLoop_cons_fst, toolStartNames_append]
    cases hml : ch.messages.getLast? with
    | none =>
      have hpc : processChunk st ch = ([], st) := processChunk_none st ch hml
      have hpc1 : (processChunk st ch).1 = [] := by rw [hpc]
      have hpc2 : (processChunk st ch).2 = st := by rw [hpc]
      rw [hpc1, hpc2, ih st, toolCallNames_cons_none ch rest (toolCallNameOf_none_msg ch hml)]
      rfl
    | some m =>
      have hpc : processChunk st ch = processMsg st m := processChunk_some st ch m hml
      rw [hpc]
      cases hcalls : m.tool_calls with
      | nil =>
        obtain ⟨hA, hB⟩ :=
          processMsg_toolStart_skip st m (fun s => toolStartStep_none s m hcalls)
        rw [hA, ih ((processMsg st m).2), hB,
          toolCallNames_cons_none ch rest (toolCallNameOf_nil_calls ch m hml hcalls)]
        rfl
      | cons tc rest2 =>
        by_cases hai : m.type = "ai"
        · by_cases hne : tc.name = st.lastToolName
          · obtain ⟨hA, hB⟩ := processMsg_toolStart_same st m tc rest2 hcalls hai hne
            rw [hA, ih ((processMsg st m).2), hB,
              toolCallNames_cons_some ch rest tc.name
                (toolCallNameOf_ai ch m tc rest2 hml hcalls hai),
              dedupConsec_cons, if_pos hne]
            rfl
          · obtain ⟨hA, hB⟩ := processMsg_toolStart_emit st m tc rest2 hcalls hai hne
            rw [hA, ih ((processMsg st m).2), hB,
              toolCallNames_cons_some ch rest tc.name
                (toolCallNameOf_ai ch m tc rest2 hml hcalls hai),
              dedupConsec_cons, if_neg hne]
            rfl
        · obtain ⟨hA, hB⟩ :=
            processMsg_toolStart_skip st m (fun s => toolStartStep_notAi s m hai)
          rw [hA, ih ((processMsg st m).2), hB,
            toolCallNames_cons_none ch rest
              (toolCallNameOf_notAi ch m tc rest2 hml hcalls hai)]
          rfl

/-- C3 counterexample: a stream whose chunks carry tool calls `a`, `b`, `a`
emits a `tool_start` for `a` twice — the handler deduplicates only against
the immediately preceding tool name (`lastToolName`), not against all tools
already started, so the first tool is announced again after an intervening
different tool. -/
theorem tool_start_repeats_for_nonconsecutive :
    toolStartNames (processStream
      [⟨[⟨"ai", none, [⟨"a", .null⟩], none⟩]⟩,
       ⟨[⟨"ai", none, [⟨"b", .null⟩], none⟩]⟩,
       ⟨[⟨"ai", none, [⟨"a", .null⟩], none⟩]⟩])
      = ["a", "b", "a"]
    ∧ (toolStartNames (processStream
      [⟨[⟨"ai", none, [⟨"a", .null⟩], none⟩]⟩,
       ⟨[⟨"ai", none, [⟨"b", .null⟩], none⟩]⟩,
       ⟨[⟨"ai", none, [⟨"a", .null⟩], none⟩]⟩])).count "a" = 2 :=
  ⟨rfl, rfl⟩

/-- C3: amended — `tool_start` deduplication is only against the immediately
preceding tool name: the emitted `tool_start` names are exactly the
consecutive-duplicate collapse (seeded with the initial `lastToolName = ""`)
of the observed tool-call names of the stream, HTML-escaped; the same tool
may be announced again whenever a different tool intervened. -/
theorem tool_start_consecutive_dedup (chunks : List Chunk) :
    toolStartNames (processStream chunks)
      = (dedupConsec "" (toolCallNames chunks)).map sanitizeHTML :=
  loop_toolStartNames chunks initState


/-! ## Theorems: token reconstruction (C1) -/

theorem toolEndStep_notTool (st : SState) (m : Msg) (h : m.type ≠ "tool") :
    toolEndStep st m = ([], st) := by
  unfold toolEndStep
  rw [if_neg h]

theorem isPrefixOf_append_self (pre rest : List Char) :
    pre.isPrefixOf (pre ++ rest) = true := by
  induction pre with
  | nil => cases rest <;> rfl
  | cons p ps ih =>
    show (p == p && ps.isPrefixOf (ps ++ rest)) = true
    rw [ih, Bool.and_true, beq_self_eq_true]

theorem isToolKey_toolKeyOf (m : Msg) : isToolKey (toolKeyOf m) = true := by
  unfold isToolKey toolKeyOf
  rw [String.data_append]
  exact isPrefixOf_append_self _ _

theorem messageKey_not_toolKey (m : Msg) (h : m.type = "ai") :
    isToolKey (messageKey m) = false := by
  unfold isToolKey messageKey
  rw [h, String.data_append, String.data_append]
  rfl

theorem answerChunk_spec (c : String) (ch : Chunk) (m : Msg)
    (hml : ch.messages.getLast? = some m) (h : isAnswerChunkFor c ch = true) :
    IsAnswerMsg m ∧ contentText m.content = c := by
  unfold isAnswerChunkFor at h
  rw [hml] at h
  have h2 : (decide (m.type = "ai") && contentTruthy m.content && m.tool_calls.isEmpty
      && decide (contentText m.content = c)) = true := h
  simp only [Bool.and_eq_true, decide_eq_true_eq] at h2
  exact ⟨⟨h2.1.1.1, h2.1.1.2, h2.1.2⟩, h2.2⟩

theorem not_answerChunk_text (c : String) (ch : Chunk) (m : Msg)
    (hml : ch.messages.getLast? = some m) (h : isAnswerChunkFor c ch = false)
    (ha : IsAnswerMsg m) : contentText m.content ≠ c := by
  intro hc
  obtain ⟨h1, h2, h3⟩ := ha
  unfold isAnswerChunkFor at h
  rw [hml] at h
  have h4 : (decide (m.type = "ai") && contentTruthy m.content && m.tool_calls.isEmpty
      && decide (contentText m.content = c)) = false := h
  rw [h1, h2, h3, hc] at h4
  simp at h4

theorem answerTextOk_spec (c : String) (ch : Chunk) (m : Msg)
    (hml : ch.messages.getLast? = some m) (hok : answerTextOk c ch = true)
    (ha : IsAnswerMsg m) :
    contentText m.content = c ∨ contentText m.content = "" := by
  obtain ⟨h1, h2, h3⟩ := ha
  unfold answerTextOk at hok
  rw [hml] at hok
  have h4 : (!(decide (m.type = "ai") && contentTruthy m.content && m.tool_calls.isEmpty)
      || decide (contentText m.content = c) || decide (contentText m.content = "")) = true := hok
  rw [h1, h2, h3] at h4
  simpa using h4

theorem processMsg_token_skip (st : SState) (m : Msg) (h : tokenStep st m = ([], st)) :
    tokenContents (processMsg st m).1 = []
      ∧ (processMsg st m).2.messageBuffer = st.messageBuffer
      ∧ ((processMsg st m).2.sentMessages = st.sentMessages ∨
         (processMsg st m).2.sentMessages = toolKeyOf m :: st.sentMessages) := by
  have h1 : (tokenStep st m).1 = [] := by rw [h]
  have h2 : (tokenStep st m).2 = st := by rw [h]
  refine ⟨?_, ?_, ?_⟩
  · rw [processMsg_fst, h2, h1, tokenContents_append, tokenContents_append,
      (toolStartStep_shape st m).2.2.1, (toolEndStep_shape _ m).2.2.1]
    rfl
  · rw [processMsg_snd, h2, (toolEndStep_shape _ m).1, (toolStartStep_shape st m).1]
  · rw [processMsg_snd, h2]
    rcases (toolEndStep_shape (toolStartStep st m).2 m).2.2.2.2.2 with hcase | hcase
    · left
      rw [hcase, (toolStartStep_shape st m).2.1]
    · right
      rw [hcase, (toolStartStep_shape st m).2.1]

theorem processMsg_token_emit (st : SState) (m : Msg) (ha : IsAnswerMsg m)
    (hb : contentText m.content ≠ "" ∧ contentText m.content ≠ st.messageBuffer
        ∧ messageKey m ∉ st.sentMessages) :
    tokenContents (processMsg st m).1 = [sanitizeHTML (contentText m.content)]
      ∧ (processMsg st m).2.messageBuffer = contentText m.content
      ∧ (processMsg st m).2.sentMessages = messageKey m :: st.sentMessages := by
  have hts := tokenStep_emit st m ha hb
  have h1 : (tokenStep st m).1 = [Ev.token (sanitizeHTML (contentText m.content))] := by
    rw [hts]
  have h2 : (tokenStep st m).2
      = (⟨contentText m.content, st.lastToolName, messageKey m :: st.sentMessages⟩
          : SState) := by
    rw [hts]
  obtain ⟨hty, htr, hemp⟩ := ha
  have hcalls : m.tool_calls = [] := by
    cases hcl : m.tool_calls with
    | nil => rfl
    | cons a b =>
      rw [hcl] at hemp
      simp at hemp
  have hnt : m.type ≠ "tool" := by
    rw [hty]
    decide
  have ha1 : (toolStartStep (tokenStep st m).2 m).1 = [] := by
    rw [toolStartStep_none _ m hcalls]
  have ha2 : (toolStartStep (tokenStep st m).2 m).2 = (tokenStep st m).2 := by
    rw [toolStartStep_none _ m hcalls]
  have hb1 : (toolEndStep (tokenStep st m).2 m).1 = [] := by
    rw [toolEndStep_notTool _ m hnt]
  have hb2 : (toolEndStep (tokenStep st m).2 m).2 = (tokenStep st m).2 := by
    rw [toolEndStep_notTool _ m hnt]
  refine ⟨?_, ?_, ?_⟩
  · rw [processMsg_fst, tokenContents_append, tokenContents_append, ha2, ha1, hb1, h1]
    rfl
  · rw [processMsg_snd, ha2, hb2, h2]
  · rw [processMsg_snd, ha2, hb2, h2]

theorem loop_tokens_done (c : String) (chunks : List Chunk) :
    ∀ st : SState, (∀ ch ∈ chunks, answerTextOk c ch = true) →
    st.messageBuffer = c →
    tokenContents (processLoop st chunks).1 = [] := by
  induction chunks with
  | nil =>
    intro st _ _
    rfl
  | cons ch rest ih =>
    intro st H hbuf
    have Hch := H ch (List.mem_cons_self ch rest)
    have Hrest : ∀ ch2 ∈ rest, answerTextOk c ch2 = true :=
      fun ch2 h2 => H ch2 (List.mem_cons_of_mem ch h2)
    rw [processLoop_cons_fst, tokenContents_append]
    cases hml : ch.messages.getLast? with
    | none =>
      have hpc1 : (processChunk st ch).1 = [] := by rw [processChunk_none st ch hml]
      have hpc2 : (processChunk st ch).2 = st := by rw [processChunk_none st ch hml]
      rw [hpc1, hpc2, ih st Hrest hbuf]
      rfl
    | some m =>
      have hpc : processChunk st ch = processMsg st m := processChunk_some st ch m hml
      rw [hpc]
      have htok : tokenStep st m = ([], st) := by
        by_cases ha : IsAnswerMsg m
        · refine tokenStep_blocked st m ha ?_
          intro hcon
          obtain ⟨hne, hnb, hns⟩ := hcon
          rcases answerTextOk_spec c ch m hml Hch ha with hcc | hcc
          · exact hnb (by rw [hcc, hbuf])
          · exact hne hcc
        · exact tokenStep_not_answer st m ha
      obtain ⟨hA, hB, hC⟩ := processMsg_token_skip st m htok
      rw [hA, List.nil_append]
      exact ih ((processMsg st m).2) Hrest (by rw [hB, hbuf])

theorem loop_tokens_main (c : String) (hc : c ≠ "") (chunks : List Chunk) :
    ∀ st : SState, (∀ ch ∈ chunks, answerTextOk c ch = true) →
    st.messageBuffer = "" →
    (∀ k ∈ st.sentMessages, isToolKey k = true) →
    tokenContents (processLoop st chunks).1
      = if chunks.any (isAnswerChunkFor c) = true then [sanitizeHTML c] else [] := by
  induction chunks with
  | nil =>
    intro st _ _ _
    rfl
  | cons ch rest ih =>
    intro st H hbuf hsent
    have Hch := H ch (List.mem_cons_self ch rest)
    have Hrest : ∀ ch2 ∈ rest, answerTextOk c ch2 = true :=
      fun ch2 h2 => H ch2 (List.mem_cons_of_mem ch h2)
    rw [processLoop_cons_fst, tokenContents_append, List.any_cons]
    cases hml : ch.messages.getLast? with
    | none =>
      have hch : isAnswerChunkFor c ch = false := by
        unfold isAnswerChunkFor
        rw [hml]
      have hpc1 : (processChunk st ch).1 = [] := by rw [processChunk_none st ch hml]
      have hpc2 : (processChunk st ch).2 = st := by rw [processChunk_none st ch hml]
      rw [hpc1, hpc2, ih st Hrest hbuf hsent, hch, Bool.false_or]
      rfl
    | some m =>
      have hpc : processChunk st ch = processMsg st m := processChunk_some st ch m hml
      rw [hpc]
      by_cases hach : isAnswerChunkFor c ch = true
      · obtain ⟨ha, htext⟩ := answerChunk_spec c ch m hml hach
        have hkey : messageKey m ∉ st.sentMessages := by
          intro hmem
          have h1 := hsent _ hmem
          rw [messageKey_not_toolKey m ha.1] at h1
          exact Bool.noConfusion h1
        have hb : contentText m.content ≠ "" ∧ contentText m.content ≠ st.messageBuffer
            ∧ messageKey m ∉ st.sentMessages := by
          refine ⟨?_, ?_, hkey⟩
          · rw [htext]
            exact hc
          · rw [htext, hbuf]
            exact hc
        obtain ⟨hA, hB, hC⟩ := processMsg_token_emit st m ha hb
        have hdone : tokenContents (processLoop (processMsg st m).2 rest).1 = [] :=
          loop_tokens_done c rest ((processMsg st m).2) Hrest (by rw [hB, htext])
        rw [hA, htext, hdone, hach, Bool.true_or, if_pos rfl]
        rfl
      · have hachf : isAnswerChunkFor c ch = false := by simpa using hach
        have htok : tokenStep st m = ([], st) := by
          by_cases ha : IsAnswerMsg m
          · refine tokenStep_blocked st m ha ?_
            intro hcon
            obtain ⟨hne, hnb, hns⟩ := hcon
            rcases answerTextOk_spec c ch m hml Hch ha with hcc | hcc
            · exact not_answerChunk_text c ch m hml hachf ha hcc
            · exact hne hcc
          · exact tokenStep_not_answer st m ha
        obtain ⟨hA, hB, hC⟩ := processMsg_token_skip st m htok
        have hsent2 : ∀ k ∈ (processMsg st m).2.sentMessages, isToolKey k = true := by
          rcases hC with hcase | hcase
          · rw [hcase]
            exact hsent
          · rw [hcase]
            intro k hk
            rcases List.mem_cons.mp hk with hk1 | hk2
            · rw [hk1]
              exact isToolKey_toolKeyOf m
            · exact hsent k hk2
        rw [hA, List.nil_append,
          ih ((processMsg st m).2) Hrest (by rw [hB, hbuf]) hsent2, hachf, Bool.false_or]

/-- C1: for a stream whose final-answer messages all carry either the full
answer text `c` or an intermediate empty text (values-mode snapshots), and
which contains at least one full-answer message, the handler emits exactly
one `token` event, whose content is the HTML-escaped full answer — so
concatenating the `token` contents in emission order reproduces the final
answer exactly once, with no duplicated content, even when the full answer
chunk repeats (dedup by buffered last value and by the type-plus-content
key). -/
theorem sse_token_single (chunks : List Chunk) (c : String) (hc : c ≠ "")
    (H : ∀ ch ∈ chunks, answerTextOk c ch = true)
    (hex : chunks.any (isAnswerChunkFor c) = true) :
    tokenContents (processStream chunks) = [sanitizeHTML c]
      ∧ String.join (tokenContents (processStream chunks)) = sanitizeHTML c := by
  have h := loop_tokens_main c hc chunks initState H rfl
    (fun k hk => absurd hk (List.not_mem_nil k))
  unfold processStream
  rw [h, if_pos hex]
  exact ⟨rfl, rfl⟩

/-- C1 witness: a concrete stream — tool call, tool result, then the same
full answer chunk twice — yields exactly one `token` event carrying the full
answer. -/
theorem sse_token_single_witness :
    tokenContents (processStream
      [⟨[⟨"ai", none, [⟨"fetch", .null⟩], none⟩]⟩,
       ⟨[⟨"tool", some (.str "transcript text"), [], some "fetch"⟩]⟩,
       ⟨[⟨"ai", some (.str "The answer is 42"), [], none⟩]⟩,
       ⟨[⟨"ai", some (.str "The answer is 42"), [], none⟩]⟩])
      = [sanitizeHTML "The answer is 42"]
      ∧ String.join (tokenContents (processStream
      [⟨[⟨"ai", none, [⟨"fetch", .null⟩], none⟩]⟩,
       ⟨[⟨"tool", some (.str "transcript text"), [], some "fetch"⟩]⟩,
       ⟨[⟨"ai", some (.str "The answer is 42"), [], none⟩]⟩,
       ⟨[⟨"ai", some (.str "The answer is 42"), [], none⟩]⟩]))
      = sanitizeHTML "The answer is 42" :=
  sse_token_single
    [⟨[⟨"ai", none, [⟨"fetch", .null⟩], none⟩]⟩,
     ⟨[⟨"tool", some (.str "transcript text"), [], some "fetch"⟩]⟩,
     ⟨[⟨"ai", some (.str "The answer is 42"), [], none⟩]⟩,
     ⟨[⟨"ai", some (.str "The answer is 42"), [], none⟩]⟩]
    "The answer is 42" (by decide) (by decide) (by decide)

end YTR
